import Mathlib

/-!
# Launch sequencer of go-docker-compose: `internal/runner/runner.go`

A shallow embedding of `waitForCondition` and `Run`.

* A Go `string` is a sequence of bytes.  It is modelled by a Lean `String` whose
  characters stand for the bytes, so `len s` is `s.length`, `s[:12]` is the
  string of the first 12 characters of `s` (and panics when `len s < 12`), and
  `strings.Contains` is the infix relation on the character lists.
* A Go `error` is a value with a message and, when it was built by
  `fmt.Errorf` with a `%w` verb, the error it wraps.
* The container runtime, the context and the two helpers of this repository
  that `Run` calls (`buildImage`, `TranslateServiceConfigToContainerConfig`)
  are the environment: a `Client σ κ` is an arbitrary state machine answering
  each call, so a statement for every `Client` is a statement for every
  behaviour of the runtime.
* The polling loop of `waitForCondition` need not terminate; it is given a
  number of polls it may make (`fuel`) and reports `Outcome.pending` when that
  number is used up with the loop still waiting.
* Every function returns, next to its result, the trace of the calls it made.
-/

namespace Runner

/-! ## Errors -/

/-- Go `error` values: `base` is an error that wraps nothing (one produced by the
runtime, the context, a helper, or `fmt.Errorf` without `%w`); `wrap msg inner`
is the result of `fmt.Errorf` with a `%w` verb whose formatted text is `msg`. -/
inductive GoError where
  | base (msg : String)
  | wrap (msg : String) (inner : GoError)
  deriving DecidableEq, Repr

/-- The method `Error()`: the message of an error. -/
def GoError.Error : GoError → String
  | .base msg => msg
  | .wrap msg _ => msg

/-- The method `Unwrap()`: the wrapped error, when there is one. -/
def GoError.Unwrap : GoError → Option GoError
  | .base _ => none
  | .wrap _ inner => some inner

/-- Go `strings.Contains msg sub`: `sub` occurs in `msg` as a contiguous run. -/
def Mentions (msg sub : String) : Prop := sub.data <:+: msg.data

instance (msg sub : String) : Decidable (Mentions msg sub) := by
  unfold Mentions; infer_instance

/-! ## Data model (the fields `runner.go` reads) -/

/-- Docker `container.Health`: only `Status` is read. -/
structure Health where
  Status : String
  deriving DecidableEq, Repr

/-- Docker `container.State`: the fields `waitForCondition` reads. -/
structure ContainerState where
  Running : Bool
  ExitCode : Int
  Health : Option Health
  deriving DecidableEq, Repr

/-- Docker `container.InspectResponse`: `State` is a pointer and may be nil. -/
structure InspectResponse where
  State : Option ContainerState
  deriving DecidableEq, Repr

/-- The compose type `ServiceDependency`: only `Condition` is read. -/
structure ServiceDependency where
  Condition : String
  deriving DecidableEq, Repr

/-- The compose type `BuildConfig`; `Run` only tests the pointer for nil. -/
structure BuildConfig where
  Context : String
  deriving DecidableEq, Repr

/-- The compose type `ServiceConfig`, with the fields `Run` reads or writes.
`DependsOn` is a Go map; the list gives its entries in the order in which the
`range` loop of this run visits them (Go leaves that order unspecified, and the
statements below hold for every order). -/
structure ServiceConfig where
  Name : String
  Image : String
  Build : Option BuildConfig
  DependsOn : List (String × ServiceDependency)
  deriving DecidableEq, Repr

/-! ## The environment -/

/-- The runtime client, the context and the two helpers `Run` calls, as a state
machine over an arbitrary state `σ`.  `κ` is the type of the translated
container, host and network configuration, which `Run` only passes on.

`Done s` is the `select` of the polling loop: `some e` when the branch
`<-ctx.Done()` is taken, `e` being `ctx.Err()`; `none` when the ticker fires. -/
structure Client (σ κ : Type) where
  ContainerInspect : σ → String → Except GoError InspectResponse × σ
  Done : σ → Option GoError × σ
  buildImage : σ → ServiceConfig → Option GoError × σ
  ImagePull : σ → String → Option GoError × σ
  TranslateServiceConfigToContainerConfig : σ → ServiceConfig → Except GoError κ × σ
  ContainerCreate : σ → κ → String → Except GoError String × σ
  ContainerStart : σ → String → Option GoError × σ

/-- One step of a run, with the answer it got.  `WaitDone` marks the return of
`waitForCondition name cond` to `Run` with the given error (`none` for nil). -/
inductive Event where
  | ContainerInspect (name : String) (res : Except GoError InspectResponse)
  | WaitDone (name cond : String) (err : Option GoError)
  | buildImage (service : ServiceConfig) (err : Option GoError)
  | ImagePull (ref : String) (err : Option GoError)
  | Translate (service : ServiceConfig) (err : Option GoError)
  | ContainerCreate (name : String) (res : Except GoError String)
  | ContainerStart (id : String) (err : Option GoError)

/-- How a call of `waitForCondition` or `Run` ends: it returns an error value
(`none` is nil), it panics (the slice `resp.ID[:12]` is out of range), or it is
still polling when the fuel is used up. -/
inductive Outcome where
  | returned (err : Option GoError)
  | panicked
  | pending
  deriving DecidableEq, Repr

/-! ## `waitForCondition` -/

/-- The closure `check` of `waitForCondition`, applied to the answer of
`cli.ContainerInspect(ctx, name)`: the pair `(done, err)` it returns. -/
def check (name cond targetHealth : String)
    (res : Except GoError InspectResponse) : Bool × Option GoError :=
  match res with
  | .error _ => (false, none)
  | .ok info =>
    match info.State with
    | none => (false, none)
    | some st =>
      if cond = "service_healthy" then
        match st.Health with
        | some h => if h.Status = targetHealth then (true, none) else (false, none)
        | none => (false, none)
      else if cond = "service_completed_successfully" then
        if !st.Running then
          if st.ExitCode = 0 then (true, none)
          else (false, some (.base (name ++ " exited with code " ++ toString st.ExitCode)))
        else (false, none)
      else (true, none)

/-- The error of the `<-ctx.Done()` branch:
`fmt.Errorf("timeout waiting for %s (%s): %w", name, cond, ctx.Err())`. -/
def timeoutError (name cond : String) (ctxErr : GoError) : GoError :=
  .wrap ("timeout waiting for " ++ name ++ " (" ++ cond ++ "): " ++ ctxErr.Error) ctxErr

/-- Result of a wait: how it ended, the runtime state it left, the inspections
it made. -/
structure WaitResult (σ : Type) where
  outcome : Outcome
  state : σ
  trace : List Event

/-- The `for` loop of `waitForCondition`, allowed `fuel` polls. -/
def waitLoop {σ κ : Type} (cli : Client σ κ) (name cond targetHealth : String) :
    Nat → σ → WaitResult σ
  | 0, s => ⟨.pending, s, []⟩
  | fuel + 1, s =>
    let r := cli.ContainerInspect s name
    let ev := Event.ContainerInspect name r.1
    match check name cond targetHealth r.1 with
    | (_, some err) => ⟨.returned (some err), r.2, [ev]⟩
    | (true, none) => ⟨.returned none, r.2, [ev]⟩
    | (false, none) =>
      let d := cli.Done r.2
      match d.1 with
      | some ctxErr => ⟨.returned (some (timeoutError name cond ctxErr)), d.2, [ev]⟩
      | none =>
        let rest := waitLoop cli name cond targetHealth fuel d.2
        ⟨rest.outcome, rest.state, ev :: rest.trace⟩

/-- `waitForCondition(ctx, cli, name, cond, targetHealth)`. -/
def waitForCondition {σ κ : Type} (cli : Client σ κ) (fuel : Nat) (s : σ)
    (name cond targetHealth : String) : WaitResult σ :=
  if cond = "" ∨ cond = "service_started" then ⟨.returned none, s, []⟩
  else
    let targetHealth := if targetHealth = "" then "healthy" else targetHealth
    waitLoop cli name cond targetHealth fuel s

/-! ## `Run` -/

/-- The compose type `Project`: `Services` is a slice, in project order. -/
structure Project where
  Services : List ServiceConfig
  deriving DecidableEq, Repr

/-- The loop `for depName, dep := range service.DependsOn` of `Run`, over the
entries still to visit.  A wait that returns nil is followed by the next
entry; a wait that returns an error ends `Run` with
`fmt.Errorf("waiting on dependency %s for service %s: %w", ...)`. -/
def waitDeps {σ κ : Type} (cli : Client σ κ) (fuel : Nat) (service : ServiceConfig) :
    List (String × ServiceDependency) → σ → WaitResult σ
  | [], s => ⟨.returned none, s, []⟩
  | (depName, dep) :: rest, s =>
    let w := waitForCondition cli fuel s depName dep.Condition "healthy"
    match w.outcome with
    | .returned none =>
      let r := waitDeps cli fuel service rest w.state
      ⟨r.outcome, r.state, w.trace ++ Event.WaitDone depName dep.Condition none :: r.trace⟩
    | .returned (some err) =>
      ⟨.returned (some (.wrap ("waiting on dependency " ++ depName ++ " for service "
          ++ service.Name ++ ": " ++ err.Error) err)),
        w.state, w.trace ++ [Event.WaitDone depName dep.Condition (some err)]⟩
    | o => ⟨o, w.state, w.trace⟩

/-- Result of one iteration of the loop of `Run`: how it ended, the value of
`stackConfig.Services[i]` it left, the runtime state, the calls it made. -/
structure StepResult (σ : Type) where
  outcome : Outcome
  service : ServiceConfig
  state : σ
  trace : List Event

/-- Lines 99 to 112 of `Run`: translate `service`, create the container, start
it.  `stored` is the value of `stackConfig.Services[i]` at that point. -/
def createAndStart {σ κ : Type} (cli : Client σ κ) (stored service : ServiceConfig)
    (s : σ) : StepResult σ :=
  let t := cli.TranslateServiceConfigToContainerConfig s service
  match t.1 with
  | .error err =>
    ⟨.returned (some (.wrap ("translate service " ++ service.Name ++ " config: "
        ++ err.Error) err)), stored, t.2, [Event.Translate service (some err)]⟩
  | .ok config =>
    let c := cli.ContainerCreate t.2 config service.Name
    match c.1 with
    | .error err =>
      ⟨.returned (some (.wrap ("create container " ++ service.Name ++ ": " ++ err.Error) err)),
        stored, c.2, [Event.Translate service none, Event.ContainerCreate service.Name c.1]⟩
    | .ok id =>
      if id.length < 12 then
        ⟨.panicked, stored, c.2,
          [Event.Translate service none, Event.ContainerCreate service.Name c.1]⟩
      else
        let st := cli.ContainerStart c.2 id
        let tr := [Event.Translate service none, Event.ContainerCreate service.Name c.1,
          Event.ContainerStart id st.1]
        match st.1 with
        | some err =>
          ⟨.returned (some (.wrap ("start container " ++ service.Name ++ " (ID: "
              ++ String.mk (id.data.take 12) ++ "): " ++ err.Error) err)), stored, st.2, tr⟩
        | none => ⟨.returned none, stored, st.2, tr⟩

/-- Lines 80 to 112 of `Run`, reached when every dependency wait returned nil:
build or pull, then `createAndStart`. -/
def launch {σ κ : Type} (cli : Client σ κ) (service : ServiceConfig) (s : σ) :
    StepResult σ :=
  match service.Build with
  | some _ =>
    let b := cli.buildImage s service
    match b.1 with
    | some err =>
      ⟨.returned (some (.wrap ("error building new image for service " ++ service.Name
          ++ ": " ++ err.Error) err)), service, b.2, [Event.buildImage service (some err)]⟩
    | none =>
      let service' := if service.Image = "" then { service with Image := service.Name }
        else service
      let r := createAndStart cli service' service' b.2
      ⟨r.outcome, r.service, r.state, Event.buildImage service none :: r.trace⟩
  | none =>
    let p := cli.ImagePull s service.Image
    match p.1 with
    | some err =>
      ⟨.returned (some (.wrap ("pull image " ++ service.Image ++ ": " ++ err.Error) err)),
        service, p.2, [Event.ImagePull service.Image (some err)]⟩
    | none =>
      let r := createAndStart cli service service p.2
      ⟨r.outcome, r.service, r.state, Event.ImagePull service.Image none :: r.trace⟩

/-- The body of the loop of `Run` for `service := stackConfig.Services[i]`. -/
def runService {σ κ : Type} (cli : Client σ κ) (fuel : Nat) (service : ServiceConfig)
    (s : σ) : StepResult σ :=
  let w := waitDeps cli fuel service service.DependsOn s
  match w.outcome with
  | .returned none =>
    let r := launch cli service w.state
    ⟨r.outcome, r.service, r.state, w.trace ++ r.trace⟩
  | o => ⟨o, service, w.state, w.trace⟩

/-- Result of `Run`: how it ended, `stackConfig.Services` as it left it, the
runtime state, the calls made (each with the loop index `i` it was made at),
and the value of `i` when the loop was left (the number of services when it ran
to its end). -/
structure RunResult (σ : Type) where
  outcome : Outcome
  services : List ServiceConfig
  state : σ
  trace : List (Nat × Event)
  index : Nat

/-- The loop `for i := range stackConfig.Services` from index `i` on, over the
services still to process. -/
def runServices {σ κ : Type} (cli : Client σ κ) (fuel : Nat) :
    Nat → List ServiceConfig → σ → RunResult σ
  | i, [], s => ⟨.returned none, [], s, [], i⟩
  | i, service :: rest, s =>
    let r := runService cli fuel service s
    match r.outcome with
    | .returned none =>
      let t := runServices cli fuel (i + 1) rest r.state
      ⟨t.outcome, r.service :: t.services, t.state, r.trace.map (Prod.mk i) ++ t.trace, t.index⟩
    | o => ⟨o, r.service :: rest, r.state, r.trace.map (Prod.mk i), i⟩

/-- `Run(ctx, cli, stackConfig)`. -/
def Run {σ κ : Type} (cli : Client σ κ) (fuel : Nat) (stackConfig : Project) (s : σ) :
    RunResult σ :=
  runServices cli fuel 0 stackConfig.Services s

/-! ## A scripted runtime, for concrete runs -/

/-- A runtime given by a script: the answers to the successive inspections and
`select`s (an exhausted list answers "no such container" and "tick"), the
error of each other call, and the id a created container gets. -/
structure Script where
  inspects : List (Except GoError InspectResponse)
  dones : List (Option GoError)
  buildErr : Option GoError
  pullErr : Option GoError
  translateErr : Option GoError
  createErr : Option GoError
  startErr : Option GoError
  id : String

/-- The client that plays a `Script`; the translated configuration is the
image reference of the service. -/
def scripted : Client Script String where
  ContainerInspect s _ :=
    match s.inspects with
    | [] => (.error (.base "No such container"), s)
    | r :: rs => (r, { s with inspects := rs })
  Done s :=
    match s.dones with
    | [] => (none, s)
    | d :: ds => (d, { s with dones := ds })
  buildImage s _ := (s.buildErr, s)
  ImagePull s _ := (s.pullErr, s)
  TranslateServiceConfigToContainerConfig s service :=
    match s.translateErr with
    | some e => (.error e, s)
    | none => (.ok service.Image, s)
  ContainerCreate s _ _ :=
    match s.createErr with
    | some e => (.error e, s)
    | none => (.ok s.id, s)
  ContainerStart s _ := (s.startErr, s)

/-- A script in which every call succeeds and created containers get a
64-character id. -/
def quiet : Script where
  inspects := []
  dones := []
  buildErr := none
  pullErr := none
  translateErr := none
  createErr := none
  startErr := none
  id := "4f53cda18c2baa0c0354bb5f9a3ecbe5ed12ab4d8e11ba873c2f11161202b945"

/-- An inspection answer: a container that has stopped with the given code. -/
def exited (code : Int) : Except GoError InspectResponse :=
  .ok ⟨some ⟨false, code, none⟩⟩

/-- An inspection answer: a running container with the given health status. -/
def running (health : Option String) : Except GoError InspectResponse :=
  .ok ⟨some ⟨true, 0, health.map Health.mk⟩⟩

/-! ## Observations of a polling loop -/

/-- The container state an inspection shows: none when the inspection failed
or its `State` is nil. -/
def observed : Except GoError InspectResponse → Option ContainerState
  | .ok info => info.State
  | .error _ => none

/-- The inspection shows the target not running, with exit code `code`. -/
def StoppedWith (code : Int) (res : Except GoError InspectResponse) : Prop :=
  ∃ st, observed res = some st ∧ st.Running = false ∧ st.ExitCode = code

/-- The inspection shows the target not running. -/
def Stopped (res : Except GoError InspectResponse) : Prop :=
  ∃ st, observed res = some st ∧ st.Running = false

/-- The inspection shows the target still running. -/
def StillRunning (res : Except GoError InspectResponse) : Prop :=
  ∃ st, observed res = some st ∧ st.Running = true

/-- The inspection succeeds and reports the health status `status`. -/
def ReportsHealth (status : String) (res : Except GoError InspectResponse) : Prop :=
  ∃ st, observed res = some st ∧ st.Health = some ⟨status⟩

/-- The runtime state at the start of poll `k` (counted from 0) of a wait on
`name` begun in state `s`, when each earlier poll was followed by a tick. -/
def pollState {σ κ : Type} (cli : Client σ κ) (name : String) : Nat → σ → σ
  | 0, s => s
  | k + 1, s => pollState cli name k (cli.Done (cli.ContainerInspect s name).2).2

/-- The answer of the inspection of poll `k`. -/
def inspectAt {σ κ : Type} (cli : Client σ κ) (name : String) (s : σ) (k : Nat) :
    Except GoError InspectResponse :=
  (cli.ContainerInspect (pollState cli name k s) name).1

/-- The answer of the `select` that follows the inspection of poll `k`. -/
def selectAt {σ κ : Type} (cli : Client σ κ) (name : String) (s : σ) (k : Nat) :
    Option GoError :=
  (cli.Done (cli.ContainerInspect (pollState cli name k s) name).2).1

/-- The inspections of polls `0` to `k - 1`, as events. -/
def pollEvents {σ κ : Type} (cli : Client σ κ) (name : String) : Nat → σ → List Event
  | 0, _ => []
  | k + 1, s =>
    Event.ContainerInspect name (cli.ContainerInspect s name).1 ::
      pollEvents cli name k (cli.Done (cli.ContainerInspect s name).2).2

/-- The number of inspections in a trace. -/
def inspections : List Event → Nat
  | [] => 0
  | Event.ContainerInspect _ _ :: t => inspections t + 1
  | _ :: t => inspections t

/-! ## Reading a trace -/

/-- The event is a call of `buildImage`. -/
def Event.isBuild : Event → Bool
  | .buildImage _ _ => true
  | _ => false

/-- The event is a call of `cli.ImagePull`. -/
def Event.isPull : Event → Bool
  | .ImagePull _ _ => true
  | _ => false

/-- The event is a call of `cli.ContainerCreate`. -/
def Event.isCreate : Event → Bool
  | .ContainerCreate _ _ => true
  | _ => false

/-- The event is a call of `cli.ContainerStart`. -/
def Event.isStart : Event → Bool
  | .ContainerStart _ _ => true
  | _ => false

/-- The event is a build, pull, create or start call. -/
def Event.isLaunchCall (e : Event) : Bool :=
  e.isBuild || e.isPull || e.isCreate || e.isStart

/-- The event belongs to a dependency wait: an inspection, or the return of
`waitForCondition`. -/
def Event.isWaitStep : Event → Bool
  | .ContainerInspect _ _ => true
  | .WaitDone _ _ _ => true
  | _ => false

/-- The event is the return of a `waitForCondition` with nil. -/
def Event.isWaitNil : Event → Bool
  | .WaitDone _ _ none => true
  | _ => false

/-- The name passed to `cli.ContainerCreate`, for a create call. -/
def Event.createName : Event → Option String
  | .ContainerCreate name _ => some name
  | _ => none

/-- The error a step answered with, when it answered with one. -/
def Event.err : Event → Option GoError
  | .ContainerInspect _ (.error e) => some e
  | .ContainerInspect _ (.ok _) => none
  | .WaitDone _ _ e => e
  | .buildImage _ e => e
  | .ImagePull _ e => e
  | .Translate _ e => e
  | .ContainerCreate _ (.error e) => some e
  | .ContainerCreate _ (.ok _) => none
  | .ContainerStart _ e => e

/-- The steps of loop iteration `i` in a trace of `Run`, in order. -/
def eventsOf (i : Nat) (t : List (Nat × Event)) : List Event :=
  (t.filter (fun x => x.1 == i)).map Prod.snd

/-- The names passed to the create-container calls of a trace, in order. -/
def createNames (t : List (Nat × Event)) : List String :=
  t.filterMap (fun x => x.2.createName)

/-- The number of steps of loop iteration `i` in a trace of `Run` that satisfy `p`. -/
def callsOf (i : Nat) (p : Event → Bool) (t : List (Nat × Event)) : Nat :=
  (eventsOf i t).countP p

/-- A project of three services: "a", then "b" which depends on "a" being
healthy, then "c". -/
def abcProject : Project where
  Services :=
    [⟨"a", "postgres", none, []⟩,
     ⟨"b", "api", none, [("a", ⟨"service_healthy"⟩)]⟩,
     ⟨"c", "nginx", none, []⟩]

/-- A script in which "a" is seen starting and the deadline then passes. -/
def deadlineScript : Script :=
  { quiet with
    inspects := [running (some "starting")]
    dones := [some (.base "context deadline exceeded")] }

/-- A script in which "a" is seen healthy at the first inspection. -/
def healthyScript : Script :=
  { quiet with inspects := [running (some "healthy")] }

/-- Iteration `i` of a run got past the dependency waits of its service `svc`:
the iteration was entered, and as many waits returned nil in it as the
dependency map of `svc` has entries. -/
def PastWaits {σ : Type} (r : RunResult σ) (i : Nat) (svc : ServiceConfig) : Prop :=
  i ≤ r.index ∧ callsOf i Event.isWaitNil r.trace = svc.DependsOn.length

/-- The errors `Run` builds while it processes `service`, each with the step
whose error it wraps: one constructor for each `fmt.Errorf` of `Run`. -/
inductive StepError (service : ServiceConfig) : GoError → Event → Prop where
  | wait (depName cond : String) (inner : GoError) :
      StepError service
        (.wrap ("waiting on dependency " ++ depName ++ " for service " ++ service.Name
          ++ ": " ++ inner.Error) inner)
        (Event.WaitDone depName cond (some inner))
  | build (inner : GoError) :
      StepError service
        (.wrap ("error building new image for service " ++ service.Name ++ ": "
          ++ inner.Error) inner)
        (Event.buildImage service (some inner))
  | pull (inner : GoError) :
      StepError service
        (.wrap ("pull image " ++ service.Image ++ ": " ++ inner.Error) inner)
        (Event.ImagePull service.Image (some inner))
  | translate (handed : ServiceConfig) (inner : GoError) :
      StepError service
        (.wrap ("translate service " ++ service.Name ++ " config: " ++ inner.Error) inner)
        (Event.Translate handed (some inner))
  | create (inner : GoError) :
      StepError service
        (.wrap ("create container " ++ service.Name ++ ": " ++ inner.Error) inner)
        (Event.ContainerCreate service.Name (.error inner))
  | start (id : String) (inner : GoError) :
      StepError service
        (.wrap ("start container " ++ service.Name ++ " (ID: "
          ++ String.mk (id.data.take 12) ++ "): " ++ inner.Error) inner)
        (Event.ContainerStart id (some inner))

/-- The inspection leaves a wait for `cond` waiting: under "service_healthy" it
does not report the target health status (an empty target stands for
"healthy"), under the other polled condition it does not show the target
stopped.  An inspection that fails or has a nil state is of that kind. -/
def StillWaiting (cond targetHealth : String) (res : Except GoError InspectResponse) : Prop :=
  if cond = "service_healthy" then
    ¬ ReportsHealth (if targetHealth = "" then "healthy" else targetHealth) res
  else ¬ Stopped res

/-! ## Lemmas on the polling loop -/

section WaitLemmas

variable {σ κ : Type} (cli : Client σ κ) (name cond th : String)

theorem inspectAt_succ (s : σ) (j : Nat) :
    inspectAt cli name s (j + 1)
      = inspectAt cli name (cli.Done (cli.ContainerInspect s name).2).2 j := rfl

theorem selectAt_succ (s : σ) (j : Nat) :
    selectAt cli name s (j + 1)
      = selectAt cli name (cli.Done (cli.ContainerInspect s name).2).2 j := rfl

theorem pollEvents_length (k : Nat) (s : σ) : (pollEvents cli name k s).length = k := by
  induction k generalizing s with
  | zero => rfl
  | succ k ih => simp [pollEvents, ih]

theorem inspections_pollEvents_append (k : Nat) (s : σ) (t : List Event) :
    inspections (pollEvents cli name k s ++ t) = k + inspections t := by
  induction k generalizing s with
  | zero => simp [pollEvents]
  | succ k ih => simp [pollEvents, inspections, ih]; omega

/-- While every poll so far kept waiting and was followed by a tick, the loop
is where a fresh loop started at the state of poll `k` would be. -/
theorem waitLoop_skip (k : Nat) (s : σ)
    (h : ∀ j, j < k → check name cond th (inspectAt cli name s j) = (false, none)
      ∧ selectAt cli name s j = none) (n : Nat) :
    waitLoop cli name cond th (k + n) s
      = ⟨(waitLoop cli name cond th n (pollState cli name k s)).outcome,
         (waitLoop cli name cond th n (pollState cli name k s)).state,
         pollEvents cli name k s
           ++ (waitLoop cli name cond th n (pollState cli name k s)).trace⟩ := by
  induction k generalizing s with
  | zero => simp [pollState, pollEvents]
  | succ k ih =>
    have h0 := h 0 (Nat.succ_pos k)
    have hc : check name cond th (cli.ContainerInspect s name).1 = (false, none) := h0.1
    have hd : (cli.Done (cli.ContainerInspect s name).2).1 = none := h0.2
    have ih' := ih (cli.Done (cli.ContainerInspect s name).2).2
      (fun j hj => by
        have := h (j + 1) (Nat.succ_lt_succ hj)
        rwa [inspectAt_succ, selectAt_succ] at this)
    have e : k + 1 + n = (k + n) + 1 := by omega
    rw [e, waitLoop]
    simp only [hc, hd, ih', pollState, pollEvents, List.cons_append]

theorem waitLoop_done (n : Nat) (s : σ)
    (hc : check name cond th (cli.ContainerInspect s name).1 = (true, none)) :
    waitLoop cli name cond th (n + 1) s
      = ⟨.returned none, (cli.ContainerInspect s name).2,
         [Event.ContainerInspect name (cli.ContainerInspect s name).1]⟩ := by
  rw [waitLoop]; simp only [hc]

theorem waitLoop_failed (n : Nat) (s : σ) (b : Bool) (err : GoError)
    (hc : check name cond th (cli.ContainerInspect s name).1 = (b, some err)) :
    waitLoop cli name cond th (n + 1) s
      = ⟨.returned (some err), (cli.ContainerInspect s name).2,
         [Event.ContainerInspect name (cli.ContainerInspect s name).1]⟩ := by
  rw [waitLoop]; simp only [hc]

theorem waitLoop_timeout (n : Nat) (s : σ) (ctxErr : GoError)
    (hc : check name cond th (cli.ContainerInspect s name).1 = (false, none))
    (hd : (cli.Done (cli.ContainerInspect s name).2).1 = some ctxErr) :
    waitLoop cli name cond th (n + 1) s
      = ⟨.returned (some (timeoutError name cond ctxErr)),
         (cli.Done (cli.ContainerInspect s name).2).2,
         [Event.ContainerInspect name (cli.ContainerInspect s name).1]⟩ := by
  rw [waitLoop]; simp only [hc, hd]

theorem waitLoop_tick_one (s : σ)
    (hc : check name cond th (cli.ContainerInspect s name).1 = (false, none))
    (hd : (cli.Done (cli.ContainerInspect s name).2).1 = none) :
    (waitLoop cli name cond th 1 s).outcome = .pending := by
  rw [waitLoop]; simp only [hc, hd, waitLoop]

/-- A loop that returns nil does so on an inspection that `check` accepts,
and that inspection is the last thing it did. -/
theorem waitLoop_nil_last (n : Nat) (s : σ)
    (h : (waitLoop cli name cond th n s).outcome = .returned none) :
    ∃ res, (waitLoop cli name cond th n s).trace.getLast?
        = some (Event.ContainerInspect name res)
      ∧ check name cond th res = (true, none) := by
  induction n generalizing s with
  | zero => simp [waitLoop] at h
  | succ n ih =>
    rw [waitLoop] at h ⊢
    rcases hc : check name cond th (cli.ContainerInspect s name).1 with ⟨b, e⟩
    cases e with
    | some err => simp [hc] at h
    | none =>
      cases b with
      | true => exact ⟨_, by simp [hc], hc⟩
      | false =>
        cases hd : (cli.Done (cli.ContainerInspect s name).2).1 with
        | some ctxErr => simp [hc, hd] at h
        | none =>
          simp only [hc, hd] at h ⊢
          obtain ⟨res, hl, hr⟩ := ih _ h
          refine ⟨res, ?_, hr⟩
          rw [List.getLast?_cons, hl]; rfl

/-- When `check` never reports an error, the only error the loop returns is
the timeout error. -/
theorem waitLoop_error_timeout (hne : ∀ res, (check name cond th res).2 = none)
    (n : Nat) (s : σ) (e : GoError)
    (h : (waitLoop cli name cond th n s).outcome = .returned (some e)) :
    ∃ ctxErr, e = timeoutError name cond ctxErr := by
  induction n generalizing s with
  | zero => simp [waitLoop] at h
  | succ n ih =>
    rw [waitLoop] at h
    rcases hc : check name cond th (cli.ContainerInspect s name).1 with ⟨b, e'⟩
    have := hne (cli.ContainerInspect s name).1
    rw [hc] at this
    subst this
    cases b with
    | true => simp [hc] at h
    | false =>
      cases hd : (cli.Done (cli.ContainerInspect s name).2).1 with
      | some ctxErr =>
        simp only [hc, hd, Outcome.returned.injEq, Option.some.injEq] at h
        exact ⟨ctxErr, h.symm⟩
      | none =>
        simp only [hc, hd] at h
        exact ih _ h

/-- The loop never panics. -/
theorem waitLoop_not_panicked (n : Nat) (s : σ) :
    (waitLoop cli name cond th n s).outcome ≠ .panicked := by
  induction n generalizing s with
  | zero => simp [waitLoop]
  | succ n ih =>
    rw [waitLoop]
    rcases hc : check name cond th (cli.ContainerInspect s name).1 with ⟨b, e⟩
    cases e with
    | some err => simp
    | none =>
      cases b with
      | true => simp
      | false =>
        cases hd : (cli.Done (cli.ContainerInspect s name).2).1 with
        | some ctxErr => simp [hd]
        | none => simpa [hd] using ih _

theorem waitLoop_at_done (k : Nat) (s : σ)
    (h : ∀ j, j < k → check name cond th (inspectAt cli name s j) = (false, none)
      ∧ selectAt cli name s j = none)
    (hk : check name cond th (inspectAt cli name s k) = (true, none))
    (fuel : Nat) (hf : k < fuel) :
    (waitLoop cli name cond th fuel s).outcome = .returned none
      ∧ inspections (waitLoop cli name cond th fuel s).trace = k + 1 := by
  obtain ⟨n, rfl⟩ : ∃ n, fuel = k + (n + 1) := ⟨fuel - k - 1, by omega⟩
  rw [waitLoop_skip cli name cond th k s h (n + 1),
    waitLoop_done cli name cond th n _ hk]
  simp [inspections_pollEvents_append, inspections]

theorem waitLoop_at_failed (k : Nat) (s : σ) (b : Bool) (err : GoError)
    (h : ∀ j, j < k → check name cond th (inspectAt cli name s j) = (false, none)
      ∧ selectAt cli name s j = none)
    (hk : check name cond th (inspectAt cli name s k) = (b, some err))
    (fuel : Nat) (hf : k < fuel) :
    (waitLoop cli name cond th fuel s).outcome = .returned (some err)
      ∧ inspections (waitLoop cli name cond th fuel s).trace = k + 1 := by
  obtain ⟨n, rfl⟩ : ∃ n, fuel = k + (n + 1) := ⟨fuel - k - 1, by omega⟩
  rw [waitLoop_skip cli name cond th k s h (n + 1),
    waitLoop_failed cli name cond th n _ b err hk]
  simp [inspections_pollEvents_append, inspections]

theorem waitLoop_at_timeout (k : Nat) (s : σ) (ctxErr : GoError)
    (h : ∀ j, j < k → check name cond th (inspectAt cli name s j) = (false, none)
      ∧ selectAt cli name s j = none)
    (hk : check name cond th (inspectAt cli name s k) = (false, none))
    (hd : selectAt cli name s k = some ctxErr)
    (fuel : Nat) (hf : k < fuel) :
    (waitLoop cli name cond th fuel s).outcome
        = .returned (some (timeoutError name cond ctxErr))
      ∧ inspections (waitLoop cli name cond th fuel s).trace = k + 1 := by
  obtain ⟨n, rfl⟩ : ∃ n, fuel = k + (n + 1) := ⟨fuel - k - 1, by omega⟩
  rw [waitLoop_skip cli name cond th k s h (n + 1),
    waitLoop_timeout cli name cond th n _ ctxErr hk hd]
  simp [inspections_pollEvents_append, inspections]

theorem waitLoop_at_tick (k : Nat) (s : σ)
    (h : ∀ j, j < k → check name cond th (inspectAt cli name s j) = (false, none)
      ∧ selectAt cli name s j = none)
    (hk : check name cond th (inspectAt cli name s k) = (false, none))
    (hd : selectAt cli name s k = none) :
    (waitLoop cli name cond th (k + 1) s).outcome = .pending := by
  rw [waitLoop_skip cli name cond th k s h 1]
  exact waitLoop_tick_one cli name cond th _ hk hd

end WaitLemmas

/-! ## What `check` answers -/

theorem check_completed_zero (name th : String) (res : Except GoError InspectResponse)
    (h : StoppedWith 0 res) :
    check name "service_completed_successfully" th res = (true, none) := by
  obtain ⟨st, ho, hr, hx⟩ := h
  cases res with
  | error e => simp [observed] at ho
  | ok info =>
    simp only [observed] at ho
    simp [check, ho, hr, hx]

theorem check_completed_nonzero (name th : String) (res : Except GoError InspectResponse)
    (code : Int) (hcode : code ≠ 0) (h : StoppedWith code res) :
    check name "service_completed_successfully" th res
      = (false, some (.base (name ++ " exited with code " ++ toString code))) := by
  obtain ⟨st, ho, hr, hx⟩ := h
  cases res with
  | error e => simp [observed] at ho
  | ok info =>
    simp only [observed] at ho
    simp [check, ho, hr, hx, hcode]

theorem check_completed_accepts (name th : String) (res : Except GoError InspectResponse)
    (h : check name "service_completed_successfully" th res = (true, none)) :
    StoppedWith 0 res := by
  cases res with
  | error e => simp [check] at h
  | ok info =>
    cases hs : info.State with
    | none => simp [check, hs] at h
    | some st =>
      cases hr : st.Running with
      | true => simp [check, hs, hr] at h
      | false =>
        by_cases hx : st.ExitCode = 0
        · exact ⟨st, by simp [observed, hs], hr, hx⟩
        · simp [check, hs, hr, hx] at h

theorem not_stopped_of_running (res : Except GoError InspectResponse)
    (h : StillRunning res) : ¬ Stopped res := by
  rintro ⟨st, ho, hr⟩
  obtain ⟨st', ho', hr'⟩ := h
  rw [ho] at ho'
  cases ho'
  rw [hr] at hr'
  cases hr'

theorem check_completed_waiting (name th : String) (res : Except GoError InspectResponse)
    (h : ¬ Stopped res) :
    check name "service_completed_successfully" th res = (false, none) := by
  cases res with
  | error e => simp [check]
  | ok info =>
    cases hs : info.State with
    | none => simp [check, hs]
    | some st =>
      have : st.Running = true := by
        cases hr : st.Running with
        | true => rfl
        | false => exact absurd ⟨st, by simp [observed, hs], hr⟩ h
      simp [check, hs, this]

theorem check_healthy_ok (name th : String) (res : Except GoError InspectResponse)
    (h : ReportsHealth th res) : check name "service_healthy" th res = (true, none) := by
  obtain ⟨st, ho, hh⟩ := h
  cases res with
  | error e => simp [observed] at ho
  | ok info =>
    simp only [observed] at ho
    simp [check, ho, hh]

theorem check_healthy_waiting (name th : String) (res : Except GoError InspectResponse)
    (h : ¬ ReportsHealth th res) : check name "service_healthy" th res = (false, none) := by
  cases res with
  | error e => simp [check]
  | ok info =>
    cases hs : info.State with
    | none => simp [check, hs]
    | some st =>
      cases hh : st.Health with
      | none => simp [check, hs, hh]
      | some hl =>
        have : hl.Status ≠ th := by
          intro heq
          exact h ⟨st, by simp [observed, hs], by rw [hh, ← heq]⟩
        simp [check, hs, hh, this]

theorem check_healthy_no_error (name th : String) (res : Except GoError InspectResponse) :
    (check name "service_healthy" th res).2 = none := by
  by_cases h : ReportsHealth th res
  · rw [check_healthy_ok name th res h]
  · rw [check_healthy_waiting name th res h]

theorem waitForCondition_completed_eq {σ κ : Type} (cli : Client σ κ) (fuel : Nat) (s : σ)
    (name th : String) :
    waitForCondition cli fuel s name "service_completed_successfully" th
      = waitLoop cli name "service_completed_successfully"
          (if th = "" then "healthy" else th) fuel s := by
  simp [waitForCondition]

theorem waitForCondition_healthy_eq {σ κ : Type} (cli : Client σ κ) (fuel : Nat) (s : σ)
    (name : String) :
    waitForCondition cli fuel s name "service_healthy" "healthy"
      = waitLoop cli name "service_healthy" "healthy" fuel s := by
  simp [waitForCondition]

/-! ## The dependency conditions -/

/-- C1. A wait for "service_completed_successfully", seen over the polls it
makes: while no inspection has shown the target stopped and each select
ticked, (1) the first poll that shows it not running with exit code 0 makes
the wait return nil, at that poll; (2) the first poll that shows it not
running with another exit code makes it return the error "<name> exited with
code <code>", which is not the timeout error; (3) a poll that shows it still
running returns nothing: the wait is pending after it, unless the select that
follows takes the context branch; (4) whenever the wait returns nil, the last
thing it did was an inspection that showed the target not running with exit
code 0. -/
theorem completed_wait_contract {σ κ : Type} (cli : Client σ κ) (name th : String)
    (s : σ) (k : Nat)
    (hwait : ∀ j, j < k →
      ¬ Stopped (inspectAt cli name s j) ∧ selectAt cli name s j = none) :
    (StoppedWith 0 (inspectAt cli name s k) → ∀ fuel, k < fuel →
      (waitForCondition cli fuel s name "service_completed_successfully" th).outcome
          = .returned none
        ∧ inspections
            (waitForCondition cli fuel s name "service_completed_successfully" th).trace
          = k + 1)
    ∧ (∀ code : Int, code ≠ 0 → StoppedWith code (inspectAt cli name s k) →
        ∀ fuel, k < fuel →
          (waitForCondition cli fuel s name "service_completed_successfully" th).outcome
              = .returned (some (.base (name ++ " exited with code " ++ toString code)))
            ∧ inspections
                (waitForCondition cli fuel s name "service_completed_successfully" th).trace
              = k + 1
            ∧ ∀ ctxErr, GoError.base (name ++ " exited with code " ++ toString code)
                ≠ timeoutError name "service_completed_successfully" ctxErr)
    ∧ (StillRunning (inspectAt cli name s k) →
        (selectAt cli name s k = none →
          (waitForCondition cli (k + 1) s name "service_completed_successfully" th).outcome
            = .pending)
        ∧ ∀ ctxErr, selectAt cli name s k = some ctxErr → ∀ fuel, k < fuel →
          (waitForCondition cli fuel s name "service_completed_successfully" th).outcome
            = .returned (some (timeoutError name "service_completed_successfully" ctxErr)))
    ∧ (∀ fuel,
        (waitForCondition cli fuel s name "service_completed_successfully" th).outcome
            = .returned none →
          ∃ res,
            (waitForCondition cli fuel s name "service_completed_successfully" th).trace.getLast?
                = some (Event.ContainerInspect name res)
              ∧ StoppedWith 0 res) := by
  have h : ∀ j, j < k →
      check name "service_completed_successfully" (if th = "" then "healthy" else th)
          (inspectAt cli name s j) = (false, none)
        ∧ selectAt cli name s j = none :=
    fun j hj => ⟨check_completed_waiting _ _ _ (hwait j hj).1, (hwait j hj).2⟩
  simp only [waitForCondition_completed_eq]
  refine ⟨?_, ?_, ?_, ?_⟩
  · intro h0 fuel hf
    exact waitLoop_at_done cli name _ _ k s h (check_completed_zero _ _ _ h0) fuel hf
  · intro code hcode hx fuel hf
    have := waitLoop_at_failed cli name _ _ k s false _ h
      (check_completed_nonzero _ _ _ code hcode hx) fuel hf
    exact ⟨this.1, this.2, fun ctxErr hne => by simp [timeoutError] at hne⟩
  · intro hr
    have hk := check_completed_waiting name (if th = "" then "healthy" else th) _
      (not_stopped_of_running _ hr)
    refine ⟨fun hd => waitLoop_at_tick cli name _ _ k s h hk hd, ?_⟩
    intro ctxErr hd fuel hf
    exact (waitLoop_at_timeout cli name _ _ k s ctxErr h hk hd fuel hf).1
  · intro fuel hnil
    obtain ⟨res, hl, hc⟩ := waitLoop_nil_last cli name _ _ fuel s hnil
    exact ⟨res, hl, check_completed_accepts _ _ _ hc⟩

/-- C2. A wait for "service_healthy" with target health "healthy", seen over the
polls it makes: while no inspection has reported the status "healthy" and each
select ticked, (1) the first poll whose inspection succeeds and reports health
status "healthy" makes the wait return nil, at that poll; (2) any other poll
(inspection error, nil state, no health record, another status) returns
nothing: the wait is pending after it, unless the select that follows takes the
context branch, which gives the timeout error; (3) whatever the inspections
answer, an error the wait returns is the timeout error. -/
theorem healthy_wait_contract {σ κ : Type} (cli : Client σ κ) (name : String)
    (s : σ) (k : Nat)
    (hwait : ∀ j, j < k →
      ¬ ReportsHealth "healthy" (inspectAt cli name s j) ∧ selectAt cli name s j = none) :
    (ReportsHealth "healthy" (inspectAt cli name s k) → ∀ fuel, k < fuel →
      (waitForCondition cli fuel s name "service_healthy" "healthy").outcome
          = .returned none
        ∧ inspections (waitForCondition cli fuel s name "service_healthy" "healthy").trace
          = k + 1)
    ∧ (¬ ReportsHealth "healthy" (inspectAt cli name s k) →
        (selectAt cli name s k = none →
          (waitForCondition cli (k + 1) s name "service_healthy" "healthy").outcome
            = .pending)
        ∧ ∀ ctxErr, selectAt cli name s k = some ctxErr → ∀ fuel, k < fuel →
          (waitForCondition cli fuel s name "service_healthy" "healthy").outcome
            = .returned (some (timeoutError name "service_healthy" ctxErr)))
    ∧ (∀ fuel e,
        (waitForCondition cli fuel s name "service_healthy" "healthy").outcome
            = .returned (some e) →
          ∃ ctxErr, e = timeoutError name "service_healthy" ctxErr) := by
  have h : ∀ j, j < k →
      check name "service_healthy" "healthy" (inspectAt cli name s j) = (false, none)
        ∧ selectAt cli name s j = none :=
    fun j hj => ⟨check_healthy_waiting _ _ _ (hwait j hj).1, (hwait j hj).2⟩
  simp only [waitForCondition_healthy_eq]
  refine ⟨?_, ?_, ?_⟩
  · intro h0 fuel hf
    exact waitLoop_at_done cli name _ _ k s h (check_healthy_ok _ _ _ h0) fuel hf
  · intro hn
    have hk := check_healthy_waiting name "healthy" _ hn
    refine ⟨fun hd => waitLoop_at_tick cli name _ _ k s h hk hd, ?_⟩
    intro ctxErr hd fuel hf
    exact (waitLoop_at_timeout cli name _ _ k s ctxErr h hk hd fuel hf).1
  · intro fuel e he
    exact waitLoop_error_timeout cli name _ _ (check_healthy_no_error name "healthy")
      fuel s e he

/-- C3. A wait for "service_started" returns nil at once, for every client
(also one whose context is already done), every runtime state, every name,
every target health and every allowance of polls, zero included: the runtime
state is the one it was called in and no call was made. -/
theorem started_wait_immediate {σ κ : Type} (cli : Client σ κ) (fuel : Nat) (s : σ)
    (name th : String) :
    (waitForCondition cli fuel s name "service_started" th).outcome = .returned none
      ∧ (waitForCondition cli fuel s name "service_started" th).state = s
      ∧ (waitForCondition cli fuel s name "service_started" th).trace = [] := by
  simp [waitForCondition]

/-- Witness of C1: the target is seen running, then stopped with exit code 0;
the wait returns nil at the second poll. -/
theorem completed_wait_contract_witness :
    (∀ j, j < 1 →
      ¬ Stopped (inspectAt scripted "migrate"
          { quiet with inspects := [running none, exited 0] } j)
        ∧ selectAt scripted "migrate"
          { quiet with inspects := [running none, exited 0] } j = none)
    ∧ (waitForCondition scripted 2 { quiet with inspects := [running none, exited 0] }
        "migrate" "service_completed_successfully" "healthy").outcome = .returned none
    ∧ inspections (waitForCondition scripted 2
        { quiet with inspects := [running none, exited 0] }
        "migrate" "service_completed_successfully" "healthy").trace = 2 := by
  have hw : ∀ j, j < 1 →
      ¬ Stopped (inspectAt scripted "migrate"
          { quiet with inspects := [running none, exited 0] } j)
        ∧ selectAt scripted "migrate"
          { quiet with inspects := [running none, exited 0] } j = none := by
    intro j hj
    obtain rfl : j = 0 := by omega
    refine ⟨?_, rfl⟩
    rintro ⟨st, ho, hr⟩
    have : st = ⟨true, 0, none⟩ := (Option.some.inj ho).symm
    subst this
    cases hr
  exact ⟨hw, (completed_wait_contract scripted "migrate" "healthy"
    { quiet with inspects := [running none, exited 0] } 1 hw).1
      ⟨_, rfl, rfl, rfl⟩ 2 (by decide)⟩

/-- Witness of C2: the inspection fails, then reports "starting", then
"healthy"; the wait returns nil at the third poll. -/
theorem healthy_wait_contract_witness :
    (∀ j, j < 2 →
      ¬ ReportsHealth "healthy" (inspectAt scripted "db"
          { quiet with inspects := [.error (.base "No such container"),
              running (some "starting"), running (some "healthy")] } j)
        ∧ selectAt scripted "db"
          { quiet with inspects := [.error (.base "No such container"),
              running (some "starting"), running (some "healthy")] } j = none)
    ∧ (waitForCondition scripted 3
        { quiet with inspects := [.error (.base "No such container"),
            running (some "starting"), running (some "healthy")] }
        "db" "service_healthy" "healthy").outcome = .returned none
    ∧ inspections (waitForCondition scripted 3
        { quiet with inspects := [.error (.base "No such container"),
            running (some "starting"), running (some "healthy")] }
        "db" "service_healthy" "healthy").trace = 3 := by
  have hw : ∀ j, j < 2 →
      ¬ ReportsHealth "healthy" (inspectAt scripted "db"
          { quiet with inspects := [.error (.base "No such container"),
              running (some "starting"), running (some "healthy")] } j)
        ∧ selectAt scripted "db"
          { quiet with inspects := [.error (.base "No such container"),
              running (some "starting"), running (some "healthy")] } j = none := by
    intro j hj
    have hj' : j = 0 ∨ j = 1 := by omega
    rcases hj' with rfl | rfl
    · refine ⟨?_, rfl⟩
      rintro ⟨st, ho, _⟩
      cases ho
    · refine ⟨?_, rfl⟩
      rintro ⟨st, ho, hh⟩
      have : st = ⟨true, 0, some ⟨"starting"⟩⟩ := (Option.some.inj ho).symm
      subst this
      revert hh
      decide
  exact ⟨hw, (healthy_wait_contract scripted "db"
    { quiet with inspects := [.error (.base "No such container"),
        running (some "starting"), running (some "healthy")] } 2 hw).1
      ⟨_, rfl, rfl⟩ 3 (by decide)⟩

theorem waitForCondition_healthy_eq_gen {σ κ : Type} (cli : Client σ κ) (fuel : Nat) (s : σ)
    (name th : String) :
    waitForCondition cli fuel s name "service_healthy" th
      = waitLoop cli name "service_healthy" (if th = "" then "healthy" else th) fuel s := by
  simp [waitForCondition]

theorem check_inspect_error (name cond th : String) (e : GoError) :
    check name cond th (.error e) = (false, none) := rfl

/-- Counterexample to C8: under "service_completed_successfully" the first
inspection fails and the wait does not return an error; it polls again and
returns nil on the second inspection. -/
theorem completed_wait_swallows_inspect_error :
    (scripted.ContainerInspect
        { quiet with inspects := [.error (.base "connection refused"), exited 0] }
        "migrate").1 = .error (.base "connection refused")
    ∧ (waitForCondition scripted 2
        { quiet with inspects := [.error (.base "connection refused"), exited 0] }
        "migrate" "service_completed_successfully" "healthy").outcome = .returned none
    ∧ inspections (waitForCondition scripted 2
        { quiet with inspects := [.error (.base "connection refused"), exited 0] }
        "migrate" "service_completed_successfully" "healthy").trace = 2 :=
  ⟨rfl, rfl, rfl⟩

/-- C8, amended. Inspection errors are handled the same way under
"service_healthy" and under "service_completed_successfully": when the first
`k` polls all fail to inspect and are each followed by a tick, the wait is, under
either condition, exactly where a wait begun at the state of poll `k` would be
(same result with `k` more inspections), so it is still pending after those `k`
polls.  What differs between the two conditions is a target seen stopped with a
non-zero exit code: under "service_completed_successfully" the wait returns the
error "<name> exited with code <code>", under "service_healthy" the only error
ever returned is the timeout error. -/
theorem inspect_errors_swallowed_alike {σ κ : Type} (cli : Client σ κ) (name th : String)
    (s : σ) (k : Nat)
    (herr : ∀ j, j < k →
      (∃ e, inspectAt cli name s j = .error e) ∧ selectAt cli name s j = none) :
    (∀ cond, cond = "service_healthy" ∨ cond = "service_completed_successfully" →
      (∀ n, (waitForCondition cli (k + n) s name cond th).outcome
            = (waitForCondition cli n (pollState cli name k s) name cond th).outcome
          ∧ inspections (waitForCondition cli (k + n) s name cond th).trace
            = k + inspections
                (waitForCondition cli n (pollState cli name k s) name cond th).trace)
      ∧ (waitForCondition cli k s name cond th).outcome = .pending)
    ∧ (∀ code : Int, code ≠ 0 → StoppedWith code (inspectAt cli name s k) →
        ∀ fuel, k < fuel →
          (waitForCondition cli fuel s name "service_completed_successfully" th).outcome
            = .returned (some (.base (name ++ " exited with code " ++ toString code))))
    ∧ (∀ fuel e,
        (waitForCondition cli fuel s name "service_healthy" th).outcome
            = .returned (some e) →
          ∃ ctxErr, e = timeoutError name "service_healthy" ctxErr) := by
  have h : ∀ cond th', ∀ j, j < k →
      check name cond th' (inspectAt cli name s j) = (false, none)
        ∧ selectAt cli name s j = none := by
    intro cond th' j hj
    obtain ⟨⟨e, he⟩, hd⟩ := herr j hj
    exact ⟨by rw [he]; rfl, hd⟩
  refine ⟨?_, ?_, ?_⟩
  · intro cond hcond
    have key : ∀ n, (waitForCondition cli (k + n) s name cond th).outcome
            = (waitForCondition cli n (pollState cli name k s) name cond th).outcome
          ∧ inspections (waitForCondition cli (k + n) s name cond th).trace
            = k + inspections
                (waitForCondition cli n (pollState cli name k s) name cond th).trace := by
      intro n
      rcases hcond with rfl | rfl
      · simp only [waitForCondition_healthy_eq_gen]
        rw [waitLoop_skip cli name _ _ k s (h _ _) n]
        exact ⟨rfl, inspections_pollEvents_append cli name k s _⟩
      · simp only [waitForCondition_completed_eq]
        rw [waitLoop_skip cli name _ _ k s (h _ _) n]
        exact ⟨rfl, inspections_pollEvents_append cli name k s _⟩
    refine ⟨key, ?_⟩
    have := (key 0).1
    rw [Nat.add_zero] at this
    rw [this]
    rcases hcond with rfl | rfl
    · simp [waitForCondition, waitLoop]
    · simp [waitForCondition, waitLoop]
  · intro code hcode hx fuel hf
    simp only [waitForCondition_completed_eq]
    exact (waitLoop_at_failed cli name _ _ k s false _ (h _ _)
      (check_completed_nonzero _ _ _ code hcode hx) fuel hf).1
  · intro fuel e he
    rw [waitForCondition_healthy_eq_gen] at he
    exact waitLoop_error_timeout cli name _ _ (check_healthy_no_error name _) fuel s e he

/-- Witness of the amended C8: one failed inspection, then the target is seen
stopped with exit code 0; under "service_completed_successfully" the wait
returns nil as the wait begun after the failed poll does. -/
theorem inspect_errors_swallowed_alike_witness :
    (∀ j, j < 1 →
      (∃ e, inspectAt scripted "migrate"
          { quiet with inspects := [.error (.base "connection refused"), exited 0] } j
            = .error e)
        ∧ selectAt scripted "migrate"
          { quiet with inspects := [.error (.base "connection refused"), exited 0] } j
            = none)
    ∧ (waitForCondition scripted (1 + 1)
        { quiet with inspects := [.error (.base "connection refused"), exited 0] }
        "migrate" "service_completed_successfully" "healthy").outcome
      = (waitForCondition scripted 1
        (pollState scripted "migrate" 1
          { quiet with inspects := [.error (.base "connection refused"), exited 0] })
        "migrate" "service_completed_successfully" "healthy").outcome := by
  have hw : ∀ j, j < 1 →
      (∃ e, inspectAt scripted "migrate"
          { quiet with inspects := [.error (.base "connection refused"), exited 0] } j
            = .error e)
        ∧ selectAt scripted "migrate"
          { quiet with inspects := [.error (.base "connection refused"), exited 0] } j
            = none := by
    intro j hj
    obtain rfl : j = 0 := by omega
    exact ⟨⟨_, rfl⟩, rfl⟩
  exact ⟨hw, (((inspect_errors_swallowed_alike scripted "migrate" "healthy"
    { quiet with inspects := [.error (.base "connection refused"), exited 0] } 1 hw).1
      "service_completed_successfully" (Or.inr rfl)).1 1).1⟩

/-! ## Lemmas on the dependency waits of one service -/

theorem check_error_shape (name cond th : String) (res : Except GoError InspectResponse)
    (e : GoError) (h : (check name cond th res).2 = some e) :
    cond = "service_completed_successfully"
      ∧ ∃ code : Int, code ≠ 0 ∧ e = .base (name ++ " exited with code " ++ toString code) := by
  cases res with
  | error e' => simp [check] at h
  | ok info =>
    cases hs : info.State with
    | none => simp [check, hs] at h
    | some st =>
      simp only [check, hs] at h
      split at h
      · split at h
        · split at h <;> simp at h
        · simp at h
      · split at h
        · rename_i hc
          refine ⟨hc, ?_⟩
          split at h
          · split at h
            · simp at h
            · rename_i hx
              exact ⟨st.ExitCode, hx, by simpa using h.symm⟩
          · simp at h
        · simp at h

theorem waitLoop_error_shape {σ κ : Type} (cli : Client σ κ) (name cond th : String)
    (n : Nat) (s : σ) (e : GoError)
    (h : (waitLoop cli name cond th n s).outcome = .returned (some e)) :
    (∃ ctxErr, e = timeoutError name cond ctxErr)
      ∨ (cond = "service_completed_successfully"
        ∧ ∃ code : Int, code ≠ 0
          ∧ e = .base (name ++ " exited with code " ++ toString code)) := by
  induction n generalizing s with
  | zero => simp [waitLoop] at h
  | succ n ih =>
    rw [waitLoop] at h
    rcases hc : check name cond th (cli.ContainerInspect s name).1 with ⟨b, e'⟩
    cases e' with
    | some err =>
      simp only [hc, Outcome.returned.injEq, Option.some.injEq] at h
      subst h
      exact Or.inr (check_error_shape name cond th _ err (by rw [hc]))
    | none =>
      cases b with
      | true => simp [hc] at h
      | false =>
        cases hd : (cli.Done (cli.ContainerInspect s name).2).1 with
        | some ctxErr =>
          simp only [hc, hd, Outcome.returned.injEq, Option.some.injEq] at h
          exact Or.inl ⟨ctxErr, h.symm⟩
        | none =>
          simp only [hc, hd] at h
          exact ih _ h

theorem waitLoop_trace_waitStep {σ κ : Type} (cli : Client σ κ) (name cond th : String)
    (n : Nat) (s : σ) :
    ∀ ev ∈ (waitLoop cli name cond th n s).trace, ev.isWaitStep = true ∧ ev.isWaitNil = false := by
  induction n generalizing s with
  | zero => simp [waitLoop]
  | succ n ih =>
    rw [waitLoop]
    rcases hc : check name cond th (cli.ContainerInspect s name).1 with ⟨b, e'⟩
    cases e' with
    | some err => simp [Event.isWaitStep, Event.isWaitNil]
    | none =>
      cases b with
      | true => simp [Event.isWaitStep, Event.isWaitNil]
      | false =>
        cases hd : (cli.Done (cli.ContainerInspect s name).2).1 with
        | some ctxErr => simp [hd, Event.isWaitStep, Event.isWaitNil]
        | none =>
          simp only [hd, List.mem_cons, forall_eq_or_imp]
          exact ⟨⟨rfl, rfl⟩, ih _⟩

theorem waitForCondition_error_shape {σ κ : Type} (cli : Client σ κ) (fuel : Nat) (s : σ)
    (name cond th : String) (e : GoError)
    (h : (waitForCondition cli fuel s name cond th).outcome = .returned (some e)) :
    (∃ ctxErr, e = timeoutError name cond ctxErr)
      ∨ (cond = "service_completed_successfully"
        ∧ ∃ code : Int, code ≠ 0
          ∧ e = .base (name ++ " exited with code " ++ toString code)) := by
  unfold waitForCondition at h
  split at h
  · simp at h
  · exact waitLoop_error_shape cli name cond _ fuel s e h

theorem waitForCondition_not_panicked {σ κ : Type} (cli : Client σ κ) (fuel : Nat) (s : σ)
    (name cond th : String) :
    (waitForCondition cli fuel s name cond th).outcome ≠ .panicked := by
  unfold waitForCondition
  split
  · simp
  · exact waitLoop_not_panicked cli name cond _ fuel s

theorem waitForCondition_trace_waitStep {σ κ : Type} (cli : Client σ κ) (fuel : Nat) (s : σ)
    (name cond th : String) :
    ∀ ev ∈ (waitForCondition cli fuel s name cond th).trace,
      ev.isWaitStep = true ∧ ev.isWaitNil = false := by
  unfold waitForCondition
  split
  · simp
  · exact waitLoop_trace_waitStep cli name cond _ fuel s

section DepsLemmas

variable {σ κ : Type} (cli : Client σ κ) (fuel : Nat) (service : ServiceConfig)

theorem waitDeps_trace_waitStep (deps : List (String × ServiceDependency)) (s : σ) :
    ∀ ev ∈ (waitDeps cli fuel service deps s).trace, ev.isWaitStep = true := by
  induction deps generalizing s with
  | nil => simp [waitDeps]
  | cons d rest ih =>
    obtain ⟨depName, dep⟩ := d
    have hw := waitForCondition_trace_waitStep cli fuel s depName dep.Condition "healthy"
    intro ev hev
    rw [waitDeps] at hev
    cases ho : (waitForCondition cli fuel s depName dep.Condition "healthy").outcome with
    | returned err =>
      cases err with
      | none =>
        simp only [ho, List.mem_append, List.mem_cons] at hev
        rcases hev with h | rfl | h
        · exact (hw ev h).1
        · rfl
        · exact ih _ ev h
      | some e =>
        simp only [ho, List.mem_append, List.mem_singleton] at hev
        rcases hev with h | rfl
        · exact (hw ev h).1
        · rfl
    | panicked =>
      simp only [ho] at hev
      exact (hw ev hev).1
    | pending =>
      simp only [ho] at hev
      exact (hw ev hev).1

theorem countP_isWaitNil_wait (s : σ) (name cond th : String) :
    (waitForCondition cli fuel s name cond th).trace.countP Event.isWaitNil = 0 := by
  rw [List.countP_eq_zero]
  intro ev hev
  simp [(waitForCondition_trace_waitStep cli fuel s name cond th ev hev).2]

theorem waitDeps_nil (deps : List (String × ServiceDependency)) (s : σ)
    (h : (waitDeps cli fuel service deps s).outcome = .returned none) :
    (waitDeps cli fuel service deps s).trace.countP Event.isWaitNil = deps.length
      ∧ ∀ d ∈ deps, Event.WaitDone d.1 d.2.Condition none
          ∈ (waitDeps cli fuel service deps s).trace := by
  induction deps generalizing s with
  | nil => simp [waitDeps]
  | cons d rest ih =>
    obtain ⟨depName, dep⟩ := d
    rw [waitDeps] at h ⊢
    cases ho : (waitForCondition cli fuel s depName dep.Condition "healthy").outcome with
    | returned err =>
      cases err with
      | none =>
        simp only [ho] at h ⊢
        obtain ⟨hc, hm⟩ := ih _ h
        refine ⟨?_, ?_⟩
        · rw [List.countP_append, List.countP_cons, countP_isWaitNil_wait, hc]
          simp [Event.isWaitNil]
        · intro d hd
          rcases List.mem_cons.mp hd with rfl | hd
          · simp
          · exact List.mem_append_right _ (List.mem_cons_of_mem _ (hm d hd))
      | some e => simp [ho] at h
    | panicked => simp [ho] at h
    | pending => simp [ho] at h

theorem waitDeps_not_nil (deps : List (String × ServiceDependency)) (s : σ)
    (h : (waitDeps cli fuel service deps s).outcome ≠ .returned none) :
    (waitDeps cli fuel service deps s).trace.countP Event.isWaitNil < deps.length := by
  induction deps generalizing s with
  | nil => simp [waitDeps] at h
  | cons d rest ih =>
    obtain ⟨depName, dep⟩ := d
    rw [waitDeps] at h ⊢
    cases ho : (waitForCondition cli fuel s depName dep.Condition "healthy").outcome with
    | returned err =>
      cases err with
      | none =>
        simp only [ho] at h ⊢
        have := ih _ h
        rw [List.countP_append, List.countP_cons, countP_isWaitNil_wait]
        simp [Event.isWaitNil]
        omega
      | some e =>
        simp only [ho]
        rw [List.countP_append, countP_isWaitNil_wait]
        simp [Event.isWaitNil]
    | panicked =>
      simp only [ho]
      rw [countP_isWaitNil_wait]
      simp
    | pending =>
      simp only [ho]
      rw [countP_isWaitNil_wait]
      simp

theorem waitDeps_not_panicked (deps : List (String × ServiceDependency)) (s : σ) :
    (waitDeps cli fuel service deps s).outcome ≠ .panicked := by
  induction deps generalizing s with
  | nil => simp [waitDeps]
  | cons d rest ih =>
    obtain ⟨depName, dep⟩ := d
    rw [waitDeps]
    cases ho : (waitForCondition cli fuel s depName dep.Condition "healthy").outcome with
    | returned err =>
      cases err with
      | none => simpa [ho] using ih _
      | some e => simp [ho]
    | panicked => exact absurd ho (waitForCondition_not_panicked cli fuel s _ _ _)
    | pending => simp [ho]

/-- A dependency loop that returns an error returns the error of one wait,
wrapped with the names of the dependency and of the service; that wait's return
is the last step of the loop. -/
theorem waitDeps_error (deps : List (String × ServiceDependency)) (s : σ) (e : GoError)
    (h : (waitDeps cli fuel service deps s).outcome = .returned (some e)) :
    ∃ d ∈ deps, ∃ inner,
      e = .wrap ("waiting on dependency " ++ d.1 ++ " for service " ++ service.Name
            ++ ": " ++ inner.Error) inner
      ∧ (waitDeps cli fuel service deps s).trace.getLast?
          = some (Event.WaitDone d.1 d.2.Condition (some inner))
      ∧ ((∃ ctxErr, inner = timeoutError d.1 d.2.Condition ctxErr)
        ∨ (d.2.Condition = "service_completed_successfully"
          ∧ ∃ code : Int, code ≠ 0
            ∧ inner = .base (d.1 ++ " exited with code " ++ toString code))) := by
  induction deps generalizing s with
  | nil => simp [waitDeps] at h
  | cons d rest ih =>
    obtain ⟨depName, dep⟩ := d
    rw [waitDeps] at h ⊢
    cases ho : (waitForCondition cli fuel s depName dep.Condition "healthy").outcome with
    | returned err =>
      cases err with
      | none =>
        simp only [ho] at h ⊢
        obtain ⟨d, hd, inner, he, hl, hs⟩ := ih _ h
        refine ⟨d, List.mem_cons_of_mem _ hd, inner, he, ?_, hs⟩
        rw [List.getLast?_append, List.getLast?_cons, hl]
        rfl
      | some err =>
        simp only [ho, Outcome.returned.injEq, Option.some.injEq] at h ⊢
        refine ⟨(depName, dep), List.mem_cons_self _ _, err, h.symm, ?_,
          waitForCondition_error_shape cli fuel s depName dep.Condition "healthy" err ho⟩
        simp
    | panicked => simp [ho] at h
    | pending => simp [ho] at h

end DepsLemmas

/-! ## Lemmas on the launch of one service -/

section LaunchLemmas

variable {σ κ : Type} (cli : Client σ κ)

/-- The five ways `createAndStart` ends. -/
theorem createAndStart_cases (stored service : ServiceConfig) (s : σ) :
    (∃ err s', createAndStart cli stored service s
        = ⟨.returned (some (.wrap ("translate service " ++ service.Name ++ " config: "
            ++ err.Error) err)), stored, s', [Event.Translate service (some err)]⟩)
    ∨ (∃ err s', createAndStart cli stored service s
        = ⟨.returned (some (.wrap ("create container " ++ service.Name ++ ": "
            ++ err.Error) err)), stored, s',
            [Event.Translate service none, Event.ContainerCreate service.Name (.error err)]⟩)
    ∨ (∃ id s', id.length < 12 ∧ createAndStart cli stored service s
        = ⟨.panicked, stored, s',
            [Event.Translate service none, Event.ContainerCreate service.Name (.ok id)]⟩)
    ∨ (∃ id err s', 12 ≤ id.length ∧ createAndStart cli stored service s
        = ⟨.returned (some (.wrap ("start container " ++ service.Name ++ " (ID: "
            ++ String.mk (id.data.take 12) ++ "): " ++ err.Error) err)), stored, s',
            [Event.Translate service none, Event.ContainerCreate service.Name (.ok id),
              Event.ContainerStart id (some err)]⟩)
    ∨ (∃ id s', 12 ≤ id.length ∧ createAndStart cli stored service s
        = ⟨.returned none, stored, s',
            [Event.Translate service none, Event.ContainerCreate service.Name (.ok id),
              Event.ContainerStart id none]⟩) := by
  dsimp only [createAndStart]
  rcases ht : (cli.TranslateServiceConfigToContainerConfig s service).1 with err | config
  · exact Or.inl ⟨err, _, rfl⟩
  · simp only
    rcases hc : (cli.ContainerCreate
        (cli.TranslateServiceConfigToContainerConfig s service).2 config service.Name).1
      with err | id
    · exact Or.inr (Or.inl ⟨err, _, rfl⟩)
    · simp only
      by_cases hlen : id.length < 12
      · rw [if_pos hlen]
        exact Or.inr (Or.inr (Or.inl ⟨id, _, hlen, rfl⟩))
      · rw [if_neg hlen]
        rcases hs : (cli.ContainerStart (cli.ContainerCreate
            (cli.TranslateServiceConfigToContainerConfig s service).2 config
              service.Name).2 id).1 with _ | err
        · exact Or.inr (Or.inr (Or.inr (Or.inr ⟨id, _, by omega, rfl⟩)))
        · exact Or.inr (Or.inr (Or.inr (Or.inl ⟨id, err, _, by omega, rfl⟩)))

/-- The four ways the image acquisition of `launch` goes. -/
theorem launch_cases (service : ServiceConfig) (s : σ) :
    (service.Build ≠ none ∧ ∃ err s', launch cli service s
        = ⟨.returned (some (.wrap ("error building new image for service " ++ service.Name
            ++ ": " ++ err.Error) err)), service, s', [Event.buildImage service (some err)]⟩)
    ∨ (service.Build = none ∧ ∃ err s', launch cli service s
        = ⟨.returned (some (.wrap ("pull image " ++ service.Image ++ ": "
            ++ err.Error) err)), service, s', [Event.ImagePull service.Image (some err)]⟩)
    ∨ (service.Build ≠ none ∧ ∃ s', launch cli service s
        = ⟨(createAndStart cli
              (if service.Image = "" then { service with Image := service.Name } else service)
              (if service.Image = "" then { service with Image := service.Name } else service)
              s').outcome,
           (createAndStart cli
              (if service.Image = "" then { service with Image := service.Name } else service)
              (if service.Image = "" then { service with Image := service.Name } else service)
              s').service,
           (createAndStart cli
              (if service.Image = "" then { service with Image := service.Name } else service)
              (if service.Image = "" then { service with Image := service.Name } else service)
              s').state,
           Event.buildImage service none :: (createAndStart cli
              (if service.Image = "" then { service with Image := service.Name } else service)
              (if service.Image = "" then { service with Image := service.Name } else service)
              s').trace⟩)
    ∨ (service.Build = none ∧ ∃ s', launch cli service s
        = ⟨(createAndStart cli service service s').outcome,
           (createAndStart cli service service s').service,
           (createAndStart cli service service s').state,
           Event.ImagePull service.Image none
             :: (createAndStart cli service service s').trace⟩) := by
  dsimp only [launch]
  rcases hb : service.Build with _ | b
  · simp only
    rcases hp : (cli.ImagePull s service.Image).1 with _ | err
    · exact Or.inr (Or.inr (Or.inr ⟨trivial, _, rfl⟩))
    · exact Or.inr (Or.inl ⟨trivial, err, _, rfl⟩)
  · simp only
    rcases hp : (cli.buildImage s service).1 with _ | err
    · exact Or.inr (Or.inr (Or.inl ⟨by simp, _, rfl⟩))
    · exact Or.inl ⟨by simp, err, _, rfl⟩

end LaunchLemmas

/-! ## Lemmas on the loop body -/

theorem adopt_Name (service : ServiceConfig) :
    (if service.Image = "" then { service with Image := service.Name } else service).Name
      = service.Name := by
  split <;> rfl

theorem waitStep_createName (ev : Event) (h : ev.isWaitStep = true) : ev.createName = none := by
  cases ev <;> simp_all [Event.isWaitStep, Event.createName]

theorem waitStep_not_launchCall (ev : Event) (h : ev.isWaitStep = true) :
    ev.isLaunchCall = false := by
  cases ev <;> simp_all [Event.isWaitStep, Event.isLaunchCall, Event.isBuild, Event.isPull,
    Event.isCreate, Event.isStart]

section BodyLemmas

variable {σ κ : Type} (cli : Client σ κ) (fuel : Nat)

/-- The loop body stops with the dependency loop, or goes on to `launch`. -/
theorem runService_cases (service : ServiceConfig) (s : σ) :
    ((waitDeps cli fuel service service.DependsOn s).outcome ≠ .returned none
      ∧ runService cli fuel service s
        = ⟨(waitDeps cli fuel service service.DependsOn s).outcome, service,
           (waitDeps cli fuel service service.DependsOn s).state,
           (waitDeps cli fuel service service.DependsOn s).trace⟩)
    ∨ ((waitDeps cli fuel service service.DependsOn s).outcome = .returned none
      ∧ runService cli fuel service s
        = ⟨(launch cli service (waitDeps cli fuel service service.DependsOn s).state).outcome,
           (launch cli service (waitDeps cli fuel service service.DependsOn s).state).service,
           (launch cli service (waitDeps cli fuel service service.DependsOn s).state).state,
           (waitDeps cli fuel service service.DependsOn s).trace
             ++ (launch cli service
                  (waitDeps cli fuel service service.DependsOn s).state).trace⟩) := by
  dsimp only [runService]
  cases ho : (waitDeps cli fuel service service.DependsOn s).outcome with
  | returned err =>
    cases err with
    | none => exact Or.inr ⟨rfl, rfl⟩
    | some e => exact Or.inl ⟨by simp, rfl⟩
  | panicked => exact Or.inl ⟨by simp, rfl⟩
  | pending => exact Or.inl ⟨by simp, rfl⟩

theorem createAndStart_createName (stored service : ServiceConfig) (s : σ) :
    ((createAndStart cli stored service s).trace.filterMap Event.createName = []
        ∨ (createAndStart cli stored service s).trace.filterMap Event.createName
            = [service.Name])
      ∧ ((createAndStart cli stored service s).outcome = .returned none →
          (createAndStart cli stored service s).trace.filterMap Event.createName
            = [service.Name]) := by
  rcases createAndStart_cases cli stored service s with
    ⟨err, s2, h2⟩ | ⟨err, s2, h2⟩ | ⟨id, s2, _, h2⟩ | ⟨id, err, s2, _, h2⟩ | ⟨id, s2, _, h2⟩
  all_goals rw [h2]; simp [Event.createName]

theorem launch_createName (service : ServiceConfig) (s : σ) :
    ((launch cli service s).trace.filterMap Event.createName = []
        ∨ (launch cli service s).trace.filterMap Event.createName = [service.Name])
      ∧ ((launch cli service s).outcome = .returned none →
          (launch cli service s).trace.filterMap Event.createName = [service.Name]) := by
  rcases launch_cases cli service s with
    ⟨_, err, s', h⟩ | ⟨_, err, s', h⟩ | ⟨_, s', h⟩ | ⟨_, s', h⟩
  · rw [h]; simp [Event.createName]
  · rw [h]; simp [Event.createName]
  · rw [h]
    have := createAndStart_createName cli
      (if service.Image = "" then { service with Image := service.Name } else service)
      (if service.Image = "" then { service with Image := service.Name } else service) s'
    rw [adopt_Name] at this
    simpa [Event.createName] using this
  · rw [h]
    simpa [Event.createName] using createAndStart_createName cli service service s'

theorem waitDeps_createName (service : ServiceConfig) (deps : List (String × ServiceDependency))
    (s : σ) : (waitDeps cli fuel service deps s).trace.filterMap Event.createName = [] := by
  rw [List.filterMap_eq_nil_iff]
  intro ev hev
  exact waitStep_createName ev (waitDeps_trace_waitStep cli fuel service deps s ev hev)

theorem runService_createName (service : ServiceConfig) (s : σ) :
    ((runService cli fuel service s).trace.filterMap Event.createName = []
        ∨ (runService cli fuel service s).trace.filterMap Event.createName = [service.Name])
      ∧ ((runService cli fuel service s).outcome = .returned none →
          (runService cli fuel service s).trace.filterMap Event.createName
            = [service.Name]) := by
  rcases runService_cases cli fuel service s with ⟨hn, h⟩ | ⟨_, h⟩
  · rw [h]
    exact ⟨Or.inl (waitDeps_createName cli fuel service _ s), fun ho => absurd ho hn⟩
  · rw [h]
    simp only [List.filterMap_append, waitDeps_createName, List.nil_append]
    exact launch_createName cli service _

end BodyLemmas

theorem waitStep_not_build (ev : Event) (h : ev.isWaitStep = true) : ev.isBuild = false := by
  cases ev <;> simp_all [Event.isWaitStep, Event.isBuild]

theorem waitStep_not_pull (ev : Event) (h : ev.isWaitStep = true) : ev.isPull = false := by
  cases ev <;> simp_all [Event.isWaitStep, Event.isPull]

section CountLemmas

variable {σ κ : Type} (cli : Client σ κ) (fuel : Nat)

theorem createAndStart_counts (stored service : ServiceConfig) (s : σ) :
    (createAndStart cli stored service s).trace.countP Event.isWaitNil = 0
      ∧ (createAndStart cli stored service s).trace.countP Event.isBuild = 0
      ∧ (createAndStart cli stored service s).trace.countP Event.isPull = 0 := by
  rcases createAndStart_cases cli stored service s with
    ⟨err, s2, h2⟩ | ⟨err, s2, h2⟩ | ⟨id, s2, _, h2⟩ | ⟨id, err, s2, _, h2⟩ | ⟨id, s2, _, h2⟩
  all_goals rw [h2]; simp [List.countP_cons, Event.isWaitNil, Event.isBuild, Event.isPull]

theorem launch_counts (service : ServiceConfig) (s : σ) :
    (launch cli service s).trace.countP Event.isWaitNil = 0
      ∧ (service.Build ≠ none →
          (launch cli service s).trace.countP Event.isPull = 0
            ∧ (launch cli service s).trace.countP Event.isBuild = 1)
      ∧ (service.Build = none →
          (launch cli service s).trace.countP Event.isBuild = 0
            ∧ (launch cli service s).trace.countP Event.isPull = 1) := by
  rcases launch_cases cli service s with
    ⟨hb, err, s', h⟩ | ⟨hb, err, s', h⟩ | ⟨hb, s', h⟩ | ⟨hb, s', h⟩
  · rw [h]
    simp [List.countP_cons, Event.isWaitNil, Event.isBuild, Event.isPull, hb]
  · rw [h]
    simp [List.countP_cons, Event.isWaitNil, Event.isBuild, Event.isPull, hb]
  · rw [h]
    obtain ⟨c1, c2, c3⟩ := createAndStart_counts cli
      (if service.Image = "" then { service with Image := service.Name } else service)
      (if service.Image = "" then { service with Image := service.Name } else service) s'
    simp [List.countP_cons, Event.isWaitNil, Event.isBuild, Event.isPull, hb, c1, c2, c3]
  · rw [h]
    obtain ⟨c1, c2, c3⟩ := createAndStart_counts cli service service s'
    simp [List.countP_cons, Event.isWaitNil, Event.isBuild, Event.isPull, hb, c1, c2, c3]

theorem waitDeps_counts (service : ServiceConfig) (deps : List (String × ServiceDependency))
    (s : σ) :
    (waitDeps cli fuel service deps s).trace.countP Event.isBuild = 0
      ∧ (waitDeps cli fuel service deps s).trace.countP Event.isPull = 0 := by
  constructor
  · rw [List.countP_eq_zero]
    intro ev hev
    simp [waitStep_not_build ev (waitDeps_trace_waitStep cli fuel service deps s ev hev)]
  · rw [List.countP_eq_zero]
    intro ev hev
    simp [waitStep_not_pull ev (waitDeps_trace_waitStep cli fuel service deps s ev hev)]

/-- The build and pull calls of one run of the loop body. -/
theorem runService_counts (service : ServiceConfig) (s : σ) :
    ((runService cli fuel service s).outcome = .returned none →
        (runService cli fuel service s).trace.countP Event.isWaitNil
          = service.DependsOn.length)
      ∧ (service.Build ≠ none →
          (runService cli fuel service s).trace.countP Event.isPull = 0
            ∧ (runService cli fuel service s).trace.countP Event.isBuild ≤ 1
            ∧ ((runService cli fuel service s).trace.countP Event.isWaitNil
                  = service.DependsOn.length →
                (runService cli fuel service s).trace.countP Event.isBuild = 1))
      ∧ (service.Build = none →
          (runService cli fuel service s).trace.countP Event.isBuild = 0
            ∧ (runService cli fuel service s).trace.countP Event.isPull ≤ 1
            ∧ ((runService cli fuel service s).trace.countP Event.isWaitNil
                  = service.DependsOn.length →
                (runService cli fuel service s).trace.countP Event.isPull = 1)) := by
  obtain ⟨wb, wp⟩ := waitDeps_counts cli fuel service service.DependsOn s
  rcases runService_cases cli fuel service s with ⟨hn, h⟩ | ⟨hw, h⟩
  · rw [h]
    dsimp only
    have hlt := waitDeps_not_nil cli fuel service service.DependsOn s hn
    refine ⟨fun ho => absurd ho hn, fun _ => ⟨wp, by omega, fun hc => by omega⟩,
      fun _ => ⟨wb, by omega, fun hc => by omega⟩⟩
  · rw [h]
    dsimp only
    obtain ⟨l1, l2, l3⟩ := launch_counts cli service
      (waitDeps cli fuel service service.DependsOn s).state
    have hc := (waitDeps_nil cli fuel service service.DependsOn s hw).1
    simp only [List.countP_append, wb, wp, hc, l1, Nat.zero_add, Nat.add_zero]
    refine ⟨fun _ => trivial, fun hb => ?_, fun hb => ?_⟩
    · obtain ⟨a, b⟩ := l2 hb
      exact ⟨a, by omega, fun _ => b⟩
    · obtain ⟨a, b⟩ := l3 hb
      exact ⟨a, by omega, fun _ => b⟩

end CountLemmas

section ImageLemmas

variable {σ κ : Type} (cli : Client σ κ) (fuel : Nat)

theorem createAndStart_translate (stored service : ServiceConfig) (s : σ) :
    (createAndStart cli stored service s).service = stored
      ∧ (∃ e, Event.Translate service e ∈ (createAndStart cli stored service s).trace)
      ∧ (∀ t e, Event.Translate t e ∈ (createAndStart cli stored service s).trace →
          t = service)
      ∧ (∀ sv e, Event.buildImage sv e ∉ (createAndStart cli stored service s).trace) := by
  rcases createAndStart_cases cli stored service s with
    ⟨err, s2, h2⟩ | ⟨err, s2, h2⟩ | ⟨id, s2, _, h2⟩ | ⟨id, err, s2, _, h2⟩ | ⟨id, s2, _, h2⟩
  all_goals
    rw [h2]
    refine ⟨rfl, ⟨_, List.mem_cons_self _ _⟩, ?_, ?_⟩
    · intro t e h
      simp only [List.mem_cons, Event.Translate.injEq, List.mem_singleton, reduceCtorEq,
        List.not_mem_nil, or_false] at h
      exact h.1
    · intro sv e h
      simp at h

/-- What `launch` leaves in the project and hands to the translator. -/
theorem launch_image (service : ServiceConfig) (s : σ) :
    (service.Build = none →
        (launch cli service s).service = service
          ∧ (∀ t e, Event.Translate t e ∈ (launch cli service s).trace → t = service)
          ∧ ∀ sv e, Event.buildImage sv e ∉ (launch cli service s).trace)
      ∧ (service.Build ≠ none →
          (Event.buildImage service none ∈ (launch cli service s).trace →
            (launch cli service s).service
                = (if service.Image = "" then { service with Image := service.Name }
                    else service)
              ∧ (∃ e, Event.Translate
                    (if service.Image = "" then { service with Image := service.Name }
                      else service) e ∈ (launch cli service s).trace)
              ∧ ∀ t e, Event.Translate t e ∈ (launch cli service s).trace →
                  t = (if service.Image = "" then { service with Image := service.Name }
                        else service))
          ∧ (Event.buildImage service none ∉ (launch cli service s).trace →
              (launch cli service s).service = service)) := by
  rcases launch_cases cli service s with
    ⟨hb, err, s', h⟩ | ⟨hb, err, s', h⟩ | ⟨hb, s', h⟩ | ⟨hb, s', h⟩
  · rw [h]
    refine ⟨fun hn => absurd hn hb, fun _ => ⟨fun hm => ?_, fun _ => rfl⟩⟩
    simp at hm
  · rw [h]
    refine ⟨fun _ => ⟨rfl, fun t e hm => ?_, fun sv e hm => ?_⟩, fun hn => absurd hb hn⟩
    · simp at hm
    · simp at hm
  · rw [h]
    obtain ⟨c1, ⟨e0, c2⟩, c3, _⟩ := createAndStart_translate cli
      (if service.Image = "" then { service with Image := service.Name } else service)
      (if service.Image = "" then { service with Image := service.Name } else service) s'
    refine ⟨fun hn => absurd hn hb, fun _ => ⟨fun _ => ⟨c1, ⟨e0, ?_⟩, fun t e hm => ?_⟩,
      fun hm => ?_⟩⟩
    · exact List.mem_cons_of_mem _ c2
    · simp only [List.mem_cons, reduceCtorEq, false_or] at hm
      exact c3 t e hm
    · exact absurd (List.mem_cons_self _ _) hm
  · rw [h]
    obtain ⟨c1, _, c3, c4⟩ := createAndStart_translate cli service service s'
    refine ⟨fun _ => ⟨c1, fun t e hm => ?_, fun sv e hm => ?_⟩, fun hn => absurd hb hn⟩
    · simp only [List.mem_cons, reduceCtorEq, false_or] at hm
      exact c3 t e hm
    · simp only [List.mem_cons, reduceCtorEq, false_or] at hm
      exact c4 sv e hm

theorem waitDeps_no_translate (service : ServiceConfig)
    (deps : List (String × ServiceDependency)) (s : σ) :
    (∀ t e, Event.Translate t e ∉ (waitDeps cli fuel service deps s).trace)
      ∧ ∀ sv e, Event.buildImage sv e ∉ (waitDeps cli fuel service deps s).trace := by
  constructor
  · intro t e hm
    have := waitDeps_trace_waitStep cli fuel service deps s _ hm
    simp [Event.isWaitStep] at this
  · intro sv e hm
    have := waitDeps_trace_waitStep cli fuel service deps s _ hm
    simp [Event.isWaitStep] at this

/-- What one run of the loop body leaves in the project and hands to the
translator. -/
theorem runService_image (service : ServiceConfig) (s : σ) :
    (service.Build = none →
        (runService cli fuel service s).service = service
          ∧ (∀ t e, Event.Translate t e ∈ (runService cli fuel service s).trace →
              t = service)
          ∧ ∀ sv e, Event.buildImage sv e ∉ (runService cli fuel service s).trace)
      ∧ (service.Build ≠ none →
          (Event.buildImage service none ∈ (runService cli fuel service s).trace →
            (runService cli fuel service s).service
                = (if service.Image = "" then { service with Image := service.Name }
                    else service)
              ∧ (∃ e, Event.Translate
                    (if service.Image = "" then { service with Image := service.Name }
                      else service) e ∈ (runService cli fuel service s).trace)
              ∧ ∀ t e, Event.Translate t e ∈ (runService cli fuel service s).trace →
                  t = (if service.Image = "" then { service with Image := service.Name }
                        else service))
          ∧ (Event.buildImage service none ∉ (runService cli fuel service s).trace →
              (runService cli fuel service s).service = service)) := by
  obtain ⟨w1, w2⟩ := waitDeps_no_translate cli fuel service service.DependsOn s
  rcases runService_cases cli fuel service s with ⟨_, h⟩ | ⟨_, h⟩
  · rw [h]
    dsimp only
    exact ⟨fun _ => ⟨rfl, fun t e hm => absurd hm (w1 t e), w2⟩,
      fun _ => ⟨fun hm => absurd hm (w2 _ _), fun _ => rfl⟩⟩
  · rw [h]
    dsimp only
    obtain ⟨l1, l2⟩ := launch_image cli service
      (waitDeps cli fuel service service.DependsOn s).state
    refine ⟨fun hb => ?_, fun hb => ⟨fun hm => ?_, fun hm => ?_⟩⟩
    · obtain ⟨a, b, c⟩ := l1 hb
      refine ⟨a, fun t e hm => ?_, fun sv e hm => ?_⟩
      · rcases List.mem_append.mp hm with hm | hm
        · exact absurd hm (w1 t e)
        · exact b t e hm
      · rcases List.mem_append.mp hm with hm | hm
        · exact absurd hm (w2 sv e)
        · exact c sv e hm
    · have hm' : Event.buildImage service none
          ∈ (launch cli service (waitDeps cli fuel service service.DependsOn s).state).trace := by
        rcases List.mem_append.mp hm with hm | hm
        · exact absurd hm (w2 _ _)
        · exact hm
      obtain ⟨a, ⟨e0, b⟩, c⟩ := (l2 hb).1 hm'
      refine ⟨a, ⟨e0, List.mem_append_right _ b⟩, fun t e ht => ?_⟩
      rcases List.mem_append.mp ht with ht | ht
      · exact absurd ht (w1 t e)
      · exact c t e ht
    · exact (l2 hb).2 (fun hm' => hm (List.mem_append_right _ hm'))

end ImageLemmas

/-! ## Lemmas on the loop of `Run` -/

theorem eventsOf_append (i : Nat) (a b : List (Nat × Event)) :
    eventsOf i (a ++ b) = eventsOf i a ++ eventsOf i b := by
  simp [eventsOf]

theorem eventsOf_map_same (i : Nat) (l : List Event) :
    eventsOf i (l.map (Prod.mk i)) = l := by
  induction l with
  | nil => rfl
  | cons a l ih =>
    simp only [eventsOf] at ih
    simp [eventsOf, List.filter_cons, ih]

theorem eventsOf_eq_nil (i : Nat) (t : List (Nat × Event)) (h : ∀ x ∈ t, x.1 ≠ i) :
    eventsOf i t = [] := by
  simp only [eventsOf, List.map_eq_nil_iff, List.filter_eq_nil_iff]
  intro x hx
  simpa using h x hx

theorem eventsOf_map_ne (i j : Nat) (h : j ≠ i) (l : List Event) :
    eventsOf i (l.map (Prod.mk j)) = [] := by
  apply eventsOf_eq_nil
  intro x hx
  obtain ⟨a, _, rfl⟩ := List.mem_map.mp hx
  exact h

theorem mem_of_mem_eventsOf (i : Nat) (t : List (Nat × Event)) (ev : Event)
    (h : ev ∈ eventsOf i t) : (i, ev) ∈ t := by
  simp only [eventsOf, List.mem_map, List.mem_filter] at h
  obtain ⟨⟨j, ev'⟩, ⟨hm, hj⟩, rfl⟩ := h
  have : j = i := by simpa using hj
  subst this
  exact hm

section RunLemmas

variable {σ κ : Type} (cli : Client σ κ) (fuel : Nat)

theorem runServices_cons_nil (j : Nat) (service : ServiceConfig) (rest : List ServiceConfig)
    (s : σ) (h : (runService cli fuel service s).outcome = .returned none) :
    runServices cli fuel j (service :: rest) s
      = ⟨(runServices cli fuel (j + 1) rest (runService cli fuel service s).state).outcome,
         (runService cli fuel service s).service
           :: (runServices cli fuel (j + 1) rest (runService cli fuel service s).state).services,
         (runServices cli fuel (j + 1) rest (runService cli fuel service s).state).state,
         (runService cli fuel service s).trace.map (Prod.mk j)
           ++ (runServices cli fuel (j + 1) rest (runService cli fuel service s).state).trace,
         (runServices cli fuel (j + 1) rest (runService cli fuel service s).state).index⟩ := by
  rw [runServices]
  simp only [h]

theorem runServices_cons_stop (j : Nat) (service : ServiceConfig) (rest : List ServiceConfig)
    (s : σ) (h : (runService cli fuel service s).outcome ≠ .returned none) :
    runServices cli fuel j (service :: rest) s
      = ⟨(runService cli fuel service s).outcome,
         (runService cli fuel service s).service :: rest,
         (runService cli fuel service s).state,
         (runService cli fuel service s).trace.map (Prod.mk j), j⟩ := by
  rw [runServices]
  cases ho : (runService cli fuel service s).outcome with
  | returned err =>
    cases err with
    | none => exact absurd ho h
    | some e => rfl
  | panicked => rfl
  | pending => rfl

/-- Where the loop stops, and which iterations the steps of its trace belong to. -/
theorem runServices_index (j : Nat) (l : List ServiceConfig) (s : σ) :
    ((runServices cli fuel j l s).outcome = .returned none →
        (runServices cli fuel j l s).index = j + l.length)
      ∧ ((runServices cli fuel j l s).outcome ≠ .returned none →
        (runServices cli fuel j l s).index < j + l.length)
      ∧ j ≤ (runServices cli fuel j l s).index
      ∧ (∀ x ∈ (runServices cli fuel j l s).trace,
          j ≤ x.1 ∧ x.1 ≤ (runServices cli fuel j l s).index ∧ x.1 < j + l.length)
      ∧ (runServices cli fuel j l s).services.length = l.length := by
  induction l generalizing j s with
  | nil => simp [runServices]
  | cons service rest ih =>
    by_cases h : (runService cli fuel service s).outcome = .returned none
    · rw [runServices_cons_nil cli fuel j service rest s h]
      dsimp only
      obtain ⟨h1, h2, h3, h4, h5⟩ := ih (j + 1) (runService cli fuel service s).state
      refine ⟨fun ho => ?_, fun ho => ?_, by omega, ?_, by simp [h5]⟩
      · have := h1 ho
        simp only [List.length_cons]
        omega
      · have := h2 ho
        simp only [List.length_cons]
        omega
      · intro x hx
        simp only [List.length_cons]
        rcases List.mem_append.mp hx with hx | hx
        · obtain ⟨a, _, rfl⟩ := List.mem_map.mp hx
          exact ⟨le_refl _, by omega, by omega⟩
        · have := h4 x hx
          omega
    · rw [runServices_cons_stop cli fuel j service rest s h]
      dsimp only
      refine ⟨fun ho => absurd ho h, fun _ => by simp, le_refl _, ?_, by simp⟩
      intro x hx
      obtain ⟨a, _, rfl⟩ := List.mem_map.mp hx
      exact ⟨le_refl _, le_refl _, by simp⟩

/-- The steps of iteration `j + i` in the trace of the loop are those of one run
of the loop body on the service at position `i`, when the loop got that far. -/
theorem runServices_local (j : Nat) (l : List ServiceConfig) (s : σ) (i : Nat)
    (svc : ServiceConfig) (hi : l[i]? = some svc) :
    ((runServices cli fuel j l s).index < j + i
        ∧ eventsOf (j + i) (runServices cli fuel j l s).trace = []
        ∧ (runServices cli fuel j l s).services[i]? = some svc)
    ∨ ∃ s', eventsOf (j + i) (runServices cli fuel j l s).trace
          = (runService cli fuel svc s').trace
        ∧ (runServices cli fuel j l s).services[i]? = some (runService cli fuel svc s').service
        ∧ ((j + i < (runServices cli fuel j l s).index
            ∧ (runService cli fuel svc s').outcome = .returned none)
          ∨ (j + i = (runServices cli fuel j l s).index
            ∧ (runService cli fuel svc s').outcome ≠ .returned none
            ∧ (runServices cli fuel j l s).outcome = (runService cli fuel svc s').outcome)) := by
  induction l generalizing j s i with
  | nil => simp at hi
  | cons service rest ih =>
    by_cases h : (runService cli fuel service s).outcome = .returned none
    · rw [runServices_cons_nil cli fuel j service rest s h]
      dsimp only
      obtain ⟨_, _, h3, h4, _⟩ :=
        runServices_index cli fuel (j + 1) rest (runService cli fuel service s).state
      cases i with
      | zero =>
        simp only [List.getElem?_cons_zero, Option.some.injEq] at hi
        subst hi
        refine Or.inr ⟨s, ?_, by simp, Or.inl ⟨by simpa using h3, h⟩⟩
        simp only [Nat.add_zero, eventsOf_append, eventsOf_map_same]
        rw [eventsOf_eq_nil j _ (fun x hx => by have := h4 x hx; omega)]
        simp
      | succ i =>
        simp only [List.getElem?_cons_succ] at hi
        have e : j + (i + 1) = j + 1 + i := by omega
        have hne : j ≠ j + 1 + i := by omega
        simp only [e, eventsOf_append, eventsOf_map_ne _ _ hne, List.nil_append,
          List.getElem?_cons_succ]
        exact ih (j + 1) (runService cli fuel service s).state i hi
    · rw [runServices_cons_stop cli fuel j service rest s h]
      dsimp only
      cases i with
      | zero =>
        simp only [List.getElem?_cons_zero, Option.some.injEq] at hi
        subst hi
        exact Or.inr ⟨s, by simp [eventsOf_map_same], by simp, Or.inr ⟨rfl, h, rfl⟩⟩
      | succ i =>
        simp only [List.getElem?_cons_succ] at hi
        have hne : j ≠ j + (i + 1) := by omega
        exact Or.inl ⟨by simp, eventsOf_map_ne _ _ hne _, by simpa using hi⟩

end RunLemmas

/-! ## Fail-fast order of `Run` -/

theorem createNames_append_map (j : Nat) (a : List Event) (b : List (Nat × Event)) :
    createNames (a.map (Prod.mk j) ++ b) = a.filterMap Event.createName ++ createNames b := by
  simp [createNames, List.filterMap_append, List.filterMap_map, Function.comp_def]

theorem runServices_createNames {σ κ : Type} (cli : Client σ κ) (fuel : Nat) (j : Nat)
    (l : List ServiceConfig) (s : σ) :
    (∃ t, createNames (runServices cli fuel j l s).trace ++ t = l.map (·.Name))
      ∧ ((runServices cli fuel j l s).outcome = .returned none →
          createNames (runServices cli fuel j l s).trace = l.map (·.Name))
      ∧ ((runServices cli fuel j l s).outcome ≠ .returned none →
          createNames (runServices cli fuel j l s).trace
              = (l.map (·.Name)).take ((runServices cli fuel j l s).index - j)
            ∨ createNames (runServices cli fuel j l s).trace
              = (l.map (·.Name)).take ((runServices cli fuel j l s).index - j + 1)) := by
  induction l generalizing j s with
  | nil => simp [runServices, createNames]
  | cons service rest ih =>
    obtain ⟨hc1, hc2⟩ := runService_createName cli fuel service s
    by_cases h : (runService cli fuel service s).outcome = .returned none
    · rw [runServices_cons_nil cli fuel j service rest s h]
      dsimp only
      obtain ⟨⟨t, ht⟩, h2, h3⟩ := ih (j + 1) (runService cli fuel service s).state
      obtain ⟨_, _, hj, _, _⟩ :=
        runServices_index cli fuel (j + 1) rest (runService cli fuel service s).state
      rw [createNames_append_map, hc2 h]
      refine ⟨⟨t, by simp [ht]⟩, fun ho => by simp [h2 ho], fun ho => ?_⟩
      have e : (runServices cli fuel (j + 1) rest (runService cli fuel service s).state).index - j
          = (runServices cli fuel (j + 1) rest (runService cli fuel service s).state).index
              - (j + 1) + 1 := by omega
      rw [e]
      rcases h3 ho with h3 | h3
      · exact Or.inl (by simp [h3])
      · exact Or.inr (by simp [h3])
    · rw [runServices_cons_stop cli fuel j service rest s h]
      dsimp only
      rw [← List.append_nil (List.map (Prod.mk j) _), createNames_append_map]
      have hnil : createNames [] = [] := rfl
      rw [hnil, List.append_nil]
      rcases hc1 with hc | hc
      · rw [hc]
        exact ⟨⟨_, List.nil_append _⟩, fun ho => absurd ho h, fun _ => Or.inl (by simp)⟩
      · rw [hc]
        exact ⟨⟨rest.map (·.Name), by simp⟩, fun ho => absurd ho h,
          fun _ => Or.inr (by simp)⟩

/-- Counterexample to C4: a project of the one service "web" whose container is
created and then fails to start.  The names passed to the create calls are the
whole list of service names, and yet `Run` returns an error. -/
theorem create_names_whole_yet_error :
    createNames (Run scripted 0 ⟨[⟨"web", "nginx", none, []⟩]⟩
        { quiet with startErr := some (.base "port is already allocated") }).trace
      = (Project.mk [⟨"web", "nginx", none, []⟩]).Services.map (·.Name)
    ∧ (Run scripted 0 ⟨[⟨"web", "nginx", none, []⟩]⟩
        { quiet with startErr := some (.base "port is already allocated") }).outcome
      = .returned (some (.wrap
          "start container web (ID: 4f53cda18c2b): port is already allocated"
          (.base "port is already allocated"))) :=
  ⟨rfl, rfl⟩

/-- C4, amended. For every project and every behaviour of the runtime, the
names passed to the create-container calls of `Run` are an initial segment of
the service names in project order; they are the whole list whenever `Run`
returns nil (they can also be the whole list when it returns an error, from the
create or start of the last service); when `Run` returns an error it does so at
an index `k` inside the project, the names created are those of the first `k`
services, or of the first `k + 1` when service `k` got as far as its create
call, and no step of the run, so no build, pull, create or start call, belongs
to a service after `k`. -/
theorem create_names_initial_segment {σ κ : Type} (cli : Client σ κ) (fuel : Nat)
    (project : Project) (s : σ) :
    createNames (Run cli fuel project s).trace <+: project.Services.map (·.Name)
      ∧ ((Run cli fuel project s).outcome = .returned none →
          createNames (Run cli fuel project s).trace = project.Services.map (·.Name))
      ∧ (∀ e, (Run cli fuel project s).outcome = .returned (some e) →
          (Run cli fuel project s).index < project.Services.length
          ∧ (createNames (Run cli fuel project s).trace
                = (project.Services.map (·.Name)).take (Run cli fuel project s).index
              ∨ createNames (Run cli fuel project s).trace
                = (project.Services.map (·.Name)).take ((Run cli fuel project s).index + 1))
          ∧ ∀ x ∈ (Run cli fuel project s).trace, x.1 ≤ (Run cli fuel project s).index) := by
  obtain ⟨h1, h2, h3⟩ := runServices_createNames cli fuel 0 project.Services s
  obtain ⟨_, i2, _, i4, _⟩ := runServices_index cli fuel 0 project.Services s
  refine ⟨h1, h2, fun e he => ?_⟩
  have hne : (runServices cli fuel 0 project.Services s).outcome ≠ .returned none := by
    rw [show (runServices cli fuel 0 project.Services s).outcome = .returned (some e) from he]
    simp
  refine ⟨by simpa using i2 hne, by simpa using h3 hne, fun x hx => (i4 x hx).2.1⟩

/-- Witness of the amended C4: in the project `[a, b, c]`, where "b" depends on
"a", the wait on "a" times out; `Run` returns the error at index 1, only "a" was
created, and no step belongs to "c". -/
theorem create_names_initial_segment_witness :
    (Run scripted 1 abcProject deadlineScript).outcome
        = .returned (some (.wrap ("waiting on dependency a for service b: "
            ++ "timeout waiting for a (service_healthy): context deadline exceeded")
          (timeoutError "a" "service_healthy" (.base "context deadline exceeded"))))
      ∧ (Run scripted 1 abcProject deadlineScript).index = 1
      ∧ createNames (Run scripted 1 abcProject deadlineScript).trace = ["a"]
      ∧ ∀ x ∈ (Run scripted 1 abcProject deadlineScript).trace, x.1 ≤ 1 :=
  ⟨rfl, rfl, rfl,
    ((create_names_initial_segment scripted 1 abcProject deadlineScript).2.2 _ rfl).2.2⟩

/-! ## Dependencies are waited for before a service is launched -/

theorem eventsOf_split (i : Nat) (pre post : List (Nat × Event)) (ev : Event) :
    eventsOf i (pre ++ (i, ev) :: post) = eventsOf i pre ++ ev :: eventsOf i post := by
  simp [eventsOf, List.filter_cons]

/-- C5. In the trace of `Run`, a build, pull, create or start call made in the
iteration of service `i` comes after the return with nil of the wait for each
entry (dependency name, condition) of that service's dependency map, made in the
same iteration. -/
theorem launch_calls_follow_waits {σ κ : Type} (cli : Client σ κ) (fuel : Nat)
    (project : Project) (s : σ) (i : Nat) (svc : ServiceConfig)
    (hi : project.Services[i]? = some svc)
    (pre post : List (Nat × Event)) (ev : Event)
    (hsplit : (Run cli fuel project s).trace = pre ++ (i, ev) :: post)
    (hcall : ev.isLaunchCall = true) :
    ∀ d ∈ svc.DependsOn, (i, Event.WaitDone d.1 d.2.Condition none) ∈ pre := by
  intro d hd
  apply mem_of_mem_eventsOf
  have hev : eventsOf i (Run cli fuel project s).trace
      = eventsOf i pre ++ ev :: eventsOf i post := by
    rw [hsplit, eventsOf_split]
  have hloc := runServices_local cli fuel 0 project.Services s i svc hi
  simp only [Nat.zero_add] at hloc
  rcases hloc with ⟨_, hnil, _⟩ | ⟨s', htr, _, _⟩
  · rw [show eventsOf i (runServices cli fuel 0 project.Services s).trace
        = eventsOf i (Run cli fuel project s).trace from rfl, hev] at hnil
    simp at hnil
  · rw [show eventsOf i (runServices cli fuel 0 project.Services s).trace
        = eventsOf i (Run cli fuel project s).trace from rfl, hev] at htr
    rcases runService_cases cli fuel svc s' with ⟨_, h⟩ | ⟨hw, h⟩
    · rw [h] at htr
      dsimp only at htr
      have hmem : ev ∈ (waitDeps cli fuel svc svc.DependsOn s').trace := by
        rw [← htr]; simp
      have := waitStep_not_launchCall ev
        (waitDeps_trace_waitStep cli fuel svc _ s' ev hmem)
      rw [hcall] at this
      cases this
    · rw [h] at htr
      dsimp only at htr
      have hall := (waitDeps_nil cli fuel svc svc.DependsOn s' hw).2 d hd
      rcases List.append_eq_append_iff.mp htr with ⟨a', ha, hb⟩ | ⟨c', hc, _⟩
      · cases a' with
        | nil =>
          rw [List.append_nil] at ha
          rw [← ha]
          exact hall
        | cons x a'' =>
          simp only [List.cons_append, List.cons.injEq] at hb
          have hmem : ev ∈ (waitDeps cli fuel svc svc.DependsOn s').trace := by
            rw [ha, hb.1]; simp
          have := waitStep_not_launchCall ev
            (waitDeps_trace_waitStep cli fuel svc _ s' ev hmem)
          rw [hcall] at this
          cases this
      · rw [hc]
        exact List.mem_append_left _ hall

/-- Witness of C5: in the project `[a, b, c]` with "a" seen healthy at once, the
pull of "b" comes after the return with nil of the wait for "a". -/
theorem launch_calls_follow_waits_witness :
    (Run scripted 1 abcProject healthyScript).trace
        = [(0, Event.ImagePull "postgres" none),
           (0, Event.Translate ⟨"a", "postgres", none, []⟩ none),
           (0, Event.ContainerCreate "a" (.ok quiet.id)),
           (0, Event.ContainerStart quiet.id none),
           (1, Event.ContainerInspect "a" (running (some "healthy"))),
           (1, Event.WaitDone "a" "service_healthy" none)]
          ++ (1, Event.ImagePull "api" none)
          :: [(1, Event.Translate ⟨"b", "api", none, [("a", ⟨"service_healthy"⟩)]⟩ none),
              (1, Event.ContainerCreate "b" (.ok quiet.id)),
              (1, Event.ContainerStart quiet.id none),
              (2, Event.ImagePull "nginx" none),
              (2, Event.Translate ⟨"c", "nginx", none, []⟩ none),
              (2, Event.ContainerCreate "c" (.ok quiet.id)),
              (2, Event.ContainerStart quiet.id none)]
      ∧ (1, Event.WaitDone "a" "service_healthy" none)
          ∈ [(0, Event.ImagePull "postgres" none),
             (0, Event.Translate ⟨"a", "postgres", none, []⟩ none),
             (0, Event.ContainerCreate "a" (.ok quiet.id)),
             (0, Event.ContainerStart quiet.id none),
             (1, Event.ContainerInspect "a" (running (some "healthy"))),
             (1, Event.WaitDone "a" "service_healthy" none)] :=
  ⟨rfl, launch_calls_follow_waits scripted 1 abcProject healthyScript 1
    ⟨"b", "api", none, [("a", ⟨"service_healthy"⟩)]⟩ rfl _ _
    (Event.ImagePull "api" none) (by rfl) rfl ("a", ⟨"service_healthy"⟩)
    (List.mem_singleton.mpr rfl)⟩

/-! ## Build or pull, never both -/

/-- C6. For the service at position `i` of the project, in every run: when it
has a build specification, its iteration makes no image-pull call and at most
one build call, and exactly one build call whenever the iteration got past the
dependency waits (so also when that build fails); when it has no build
specification, its iteration makes no build call and at most one pull call, and
exactly one pull call whenever it got past the dependency waits.  Every
iteration the loop has completed got past its waits. -/
theorem build_or_pull_exclusive {σ κ : Type} (cli : Client σ κ) (fuel : Nat)
    (project : Project) (s : σ) (i : Nat) (svc : ServiceConfig)
    (hi : project.Services[i]? = some svc) :
    (svc.Build ≠ none →
        callsOf i Event.isPull (Run cli fuel project s).trace = 0
          ∧ callsOf i Event.isBuild (Run cli fuel project s).trace ≤ 1
          ∧ (PastWaits (Run cli fuel project s) i svc →
              callsOf i Event.isBuild (Run cli fuel project s).trace = 1))
      ∧ (svc.Build = none →
        callsOf i Event.isBuild (Run cli fuel project s).trace = 0
          ∧ callsOf i Event.isPull (Run cli fuel project s).trace ≤ 1
          ∧ (PastWaits (Run cli fuel project s) i svc →
              callsOf i Event.isPull (Run cli fuel project s).trace = 1))
      ∧ (i < (Run cli fuel project s).index → PastWaits (Run cli fuel project s) i svc) := by
  have hloc := runServices_local cli fuel 0 project.Services s i svc hi
  simp only [Nat.zero_add] at hloc
  unfold PastWaits callsOf Run
  rcases hloc with ⟨hlt, hnil, _⟩ | ⟨s', htr, _, hcase⟩
  · rw [hnil]
    refine ⟨fun _ => ⟨rfl, by simp, fun h => by omega⟩,
      fun _ => ⟨rfl, by simp, fun h => by omega⟩, fun h => by omega⟩
  · rw [htr]
    obtain ⟨c1, c2, c3⟩ := runService_counts cli fuel svc s'
    refine ⟨fun hb => ?_, fun hb => ?_, fun hlt => ?_⟩
    · obtain ⟨a, b, c⟩ := c2 hb
      exact ⟨a, b, fun h => c h.2⟩
    · obtain ⟨a, b, c⟩ := c3 hb
      exact ⟨a, b, fun h => c h.2⟩
    · rcases hcase with ⟨_, ho⟩ | ⟨he, _, _⟩
      · exact ⟨by omega, c1 ho⟩
      · omega

/-- Witness of C6: a service with a build specification and no image reference
whose build fails; its iteration made one build call and no pull call. -/
theorem build_or_pull_exclusive_witness :
    (Project.mk [⟨"app", "", some ⟨"."⟩, []⟩]).Services[0]?
        = some ⟨"app", "", some ⟨"."⟩, []⟩
      ∧ callsOf 0 Event.isPull (Run scripted 0 ⟨[⟨"app", "", some ⟨"."⟩, []⟩]⟩
          { quiet with buildErr := some (.base "Dockerfile not found") }).trace = 0
      ∧ callsOf 0 Event.isBuild (Run scripted 0 ⟨[⟨"app", "", some ⟨"."⟩, []⟩]⟩
          { quiet with buildErr := some (.base "Dockerfile not found") }).trace = 1 :=
  ⟨rfl,
    ((build_or_pull_exclusive scripted 0 ⟨[⟨"app", "", some ⟨"."⟩, []⟩]⟩
      { quiet with buildErr := some (.base "Dockerfile not found") } 0
      ⟨"app", "", some ⟨"."⟩, []⟩ rfl).1 (by simp)).1,
    ((build_or_pull_exclusive scripted 0 ⟨[⟨"app", "", some ⟨"."⟩, []⟩]⟩
      { quiet with buildErr := some (.base "Dockerfile not found") } 0
      ⟨"app", "", some ⟨"."⟩, []⟩ rfl).1 (by simp)).2.2 ⟨Nat.le_refl _, rfl⟩⟩

/-! ## The image reference after a build -/

theorem adopt_fields (service : ServiceConfig) :
    (if service.Image = "" then { service with Image := service.Name } else service).Name
        = service.Name
      ∧ (if service.Image = "" then { service with Image := service.Name } else service).Build
        = service.Build
      ∧ (if service.Image = "" then { service with Image := service.Name }
          else service).DependsOn = service.DependsOn
      ∧ (service.Image = "" →
          (if service.Image = "" then { service with Image := service.Name }
            else service).Image = service.Name)
      ∧ (service.Image ≠ "" →
          (if service.Image = "" then { service with Image := service.Name }
            else service).Image = service.Image) := by
  by_cases h : service.Image = ""
  · simp [h]
  · simp [h]

/-- C7. For the service `svc` at position `i` of the project, `Run` leaves at
position `i` a service `svc'` with the same name, build specification and
dependencies, and: (1) when `svc` has a build specification and its build
succeeded, the image reference of `svc'` is the name of `svc` if the image
reference of `svc` was empty and is unchanged otherwise, and `svc'` is the
service value handed to the translator, which is called; (2) when `svc` has no
build specification, `svc'` is `svc` and the translator is only handed `svc`;
(3) without a successful build of `svc`, `svc'` is `svc`. -/
theorem built_image_adopts_name {σ κ : Type} (cli : Client σ κ) (fuel : Nat)
    (project : Project) (s : σ) (i : Nat) (svc : ServiceConfig)
    (hi : project.Services[i]? = some svc) :
    ∃ svc', (Run cli fuel project s).services[i]? = some svc'
      ∧ svc'.Name = svc.Name ∧ svc'.Build = svc.Build ∧ svc'.DependsOn = svc.DependsOn
      ∧ (svc.Build ≠ none →
          Event.buildImage svc none ∈ eventsOf i (Run cli fuel project s).trace →
            (svc.Image = "" → svc'.Image = svc.Name)
              ∧ (svc.Image ≠ "" → svc'.Image = svc.Image)
              ∧ (∃ e, Event.Translate svc' e ∈ eventsOf i (Run cli fuel project s).trace)
              ∧ ∀ t e, Event.Translate t e ∈ eventsOf i (Run cli fuel project s).trace →
                  t = svc')
      ∧ (svc.Build = none →
          svc' = svc
            ∧ ∀ t e, Event.Translate t e ∈ eventsOf i (Run cli fuel project s).trace →
                t = svc)
      ∧ (Event.buildImage svc none ∉ eventsOf i (Run cli fuel project s).trace →
          svc' = svc) := by
  have hloc := runServices_local cli fuel 0 project.Services s i svc hi
  simp only [Nat.zero_add] at hloc
  unfold Run
  rcases hloc with ⟨_, hnil, hsv⟩ | ⟨s', htr, hsv, _⟩
  · refine ⟨svc, hsv, rfl, rfl, rfl, ?_, ?_, fun _ => rfl⟩
    · intro _ hm
      rw [hnil] at hm
      simp at hm
    · intro _
      refine ⟨rfl, fun t e hm => ?_⟩
      rw [hnil] at hm
      simp at hm
  · rw [htr]
    obtain ⟨r1, r2⟩ := runService_image cli fuel svc s'
    obtain ⟨a1, a2, a3, a4, a5⟩ := adopt_fields svc
    by_cases hb : svc.Build = none
    · obtain ⟨b1, b2, b3⟩ := r1 hb
      refine ⟨_, hsv, by rw [b1], by rw [b1], by rw [b1], fun hn => absurd hb hn,
        fun _ => ⟨b1, b2⟩, fun _ => b1⟩
    · by_cases hm : Event.buildImage svc none ∈ (runService cli fuel svc s').trace
      · obtain ⟨c1, c2, c3⟩ := (r2 hb).1 hm
        refine ⟨_, hsv, by rw [c1, a1], by rw [c1, a2], by rw [c1, a3], fun _ _ => ?_,
          fun hn => absurd hn hb, fun hn => absurd hm hn⟩
        rw [c1]
        exact ⟨a4, a5, c2, c3⟩
      · have c := (r2 hb).2 hm
        refine ⟨_, hsv, by rw [c], by rw [c], by rw [c], fun _ hm' => absurd hm' hm,
          fun hn => absurd hn hb, fun _ => c⟩

/-- Witness of C7: the service "app" has a build specification and no image
reference; after a run in which every call succeeds the project holds it with
the image reference "app", and that is the value the translator was handed. -/
theorem built_image_adopts_name_witness :
    (Project.mk [⟨"app", "", some ⟨"."⟩, []⟩]).Services[0]?
        = some ⟨"app", "", some ⟨"."⟩, []⟩
      ∧ ∃ svc', (Run scripted 0 ⟨[⟨"app", "", some ⟨"."⟩, []⟩]⟩ quiet).services[0]? = some svc'
          ∧ svc'.Image = "app"
          ∧ ∃ e, Event.Translate svc' e
              ∈ eventsOf 0 (Run scripted 0 ⟨[⟨"app", "", some ⟨"."⟩, []⟩]⟩ quiet).trace := by
  refine ⟨rfl, ?_⟩
  obtain ⟨svc', h1, _, _, _, hb, _, _⟩ :=
    built_image_adopts_name scripted 0 ⟨[⟨"app", "", some ⟨"."⟩, []⟩]⟩ quiet 0
      ⟨"app", "", some ⟨"."⟩, []⟩ rfl
  have h := hb (by simp) (List.Mem.head _)
  exact ⟨svc', h1, h.1 rfl, h.2.2.1⟩

/-! ## The errors of `Run` -/

theorem mentions_self (s : String) : Mentions s s :=
  ⟨[], [], by simp⟩

theorem mentions_append_left (x y n : String) (h : Mentions x n) : Mentions (x ++ y) n := by
  obtain ⟨a, b, hab⟩ := h
  exact ⟨a, b ++ y.data, by simp [← hab]⟩

theorem mentions_append_right (x y n : String) (h : Mentions y n) : Mentions (x ++ y) n := by
  obtain ⟨a, b, hab⟩ := h
  exact ⟨x.data ++ a, b, by simp [← hab]⟩

section ErrorLemmas

variable {σ κ : Type} (cli : Client σ κ) (fuel : Nat)

theorem createAndStart_error (stored service : ServiceConfig) (s : σ) (e : GoError)
    (h : (createAndStart cli stored service s).outcome = .returned (some e)) :
    ∃ ev, (createAndStart cli stored service s).trace.getLast? = some ev
      ∧ StepError service e ev ∧ ev.isWaitStep = false ∧ ev.isPull = false := by
  rcases createAndStart_cases cli stored service s with
    ⟨err, s2, h2⟩ | ⟨err, s2, h2⟩ | ⟨id, s2, _, h2⟩ | ⟨id, err, s2, _, h2⟩ | ⟨id, s2, _, h2⟩
  all_goals
    rw [h2] at h ⊢
    simp only [Outcome.returned.injEq, Option.some.injEq, reduceCtorEq] at h
  · subst h
    exact ⟨_, rfl, StepError.translate _ _, rfl, rfl⟩
  · subst h
    exact ⟨_, rfl, StepError.create _, rfl, rfl⟩
  · subst h
    exact ⟨_, rfl, StepError.start _ _, rfl, rfl⟩

theorem launch_error (service : ServiceConfig) (s : σ) (e : GoError)
    (h : (launch cli service s).outcome = .returned (some e)) :
    ∃ ev, (launch cli service s).trace.getLast? = some ev
      ∧ StepError service e ev ∧ ev.isWaitStep = false
      ∧ (ev.isPull = true → service.Build = none) := by
  rcases launch_cases cli service s with
    ⟨hb, err, s', h'⟩ | ⟨hb, err, s', h'⟩ | ⟨hb, s', h'⟩ | ⟨hb, s', h'⟩
  · rw [h'] at h ⊢
    simp only [Outcome.returned.injEq, Option.some.injEq] at h
    subst h
    exact ⟨_, rfl, StepError.build _, rfl, fun hp => by simp [Event.isPull] at hp⟩
  · rw [h'] at h ⊢
    simp only [Outcome.returned.injEq, Option.some.injEq] at h
    subst h
    exact ⟨_, rfl, StepError.pull _, rfl, fun _ => hb⟩
  · rw [h'] at h ⊢
    dsimp only at h ⊢
    obtain ⟨ev, hl, hs, hw, hp⟩ := createAndStart_error cli _ _ s' e h
    refine ⟨ev, ?_, ?_, hw, fun hp' => by rw [hp] at hp'; cases hp'⟩
    · rw [List.getLast?_cons, hl]; rfl
    · cases hs with
      | wait d c inner => simp [Event.isWaitStep] at hw
      | build inner => exact absurd hl (by
          intro hl
          have hm := List.mem_of_getLast?_eq_some hl
          exact (createAndStart_translate cli _ _ s').2.2.2 _ _ hm)
      | pull inner => simp [Event.isPull] at hp
      | translate t inner => rw [adopt_Name]; exact StepError.translate t inner
      | create inner => rw [adopt_Name]; exact StepError.create inner
      | start id inner => rw [adopt_Name]; exact StepError.start id inner
  · rw [h'] at h ⊢
    dsimp only at h ⊢
    obtain ⟨ev, hl, hs, hw, hp⟩ := createAndStart_error cli _ _ s' e h
    refine ⟨ev, ?_, hs, hw, fun _ => hb⟩
    rw [List.getLast?_cons, hl]; rfl

/-- An error of the loop body is one of the errors `Run` builds for the service,
wrapping the error of the last step taken; when that step is the return of a
wait, the wait is for an entry of the dependency map and its error is the
timeout error or the error for a non-zero exit code. -/
theorem runService_error (service : ServiceConfig) (s : σ) (e : GoError)
    (h : (runService cli fuel service s).outcome = .returned (some e)) :
    ∃ ev, (runService cli fuel service s).trace.getLast? = some ev
      ∧ StepError service e ev
      ∧ (ev.isPull = true → service.Build = none)
      ∧ ∀ depName cond inner, ev = Event.WaitDone depName cond (some inner) →
          (depName, ⟨cond⟩) ∈ service.DependsOn
            ∧ ((∃ ctxErr, inner = timeoutError depName cond ctxErr)
              ∨ (cond = "service_completed_successfully"
                ∧ ∃ code : Int, code ≠ 0
                  ∧ inner = .base (depName ++ " exited with code " ++ toString code))) := by
  rcases runService_cases cli fuel service s with ⟨_, h'⟩ | ⟨_, h'⟩
  · rw [h'] at h ⊢
    dsimp only at h ⊢
    obtain ⟨d, hd, inner, he, hl, hshape⟩ :=
      waitDeps_error cli fuel service service.DependsOn s e h
    subst he
    refine ⟨_, hl, StepError.wait _ _ _, fun hp => by simp [Event.isPull] at hp, ?_⟩
    intro depName cond inner' heq
    simp only [Event.WaitDone.injEq, Option.some.injEq] at heq
    obtain ⟨rfl, rfl, rfl⟩ := heq
    exact ⟨hd, hshape⟩
  · rw [h'] at h ⊢
    dsimp only at h ⊢
    obtain ⟨ev, hl, hs, hw, hp⟩ := launch_error cli service _ e h
    refine ⟨ev, ?_, hs, hp, ?_⟩
    · rw [List.getLast?_append, hl]; rfl
    · intro depName cond inner heq
      subst heq
      simp [Event.isWaitStep] at hw

/-- An error returned by `Run` is one of the errors it builds for the service at
the index where it stopped, wrapping the error of the last step taken there. -/
theorem run_error {σ κ : Type} (cli : Client σ κ) (fuel : Nat) (project : Project) (s : σ)
    (e : GoError) (h : (Run cli fuel project s).outcome = .returned (some e)) :
    ∃ svc ev, project.Services[(Run cli fuel project s).index]? = some svc
      ∧ (eventsOf (Run cli fuel project s).index (Run cli fuel project s).trace).getLast?
          = some ev
      ∧ StepError svc e ev
      ∧ (ev.isPull = true → svc.Build = none)
      ∧ ∀ depName cond inner, ev = Event.WaitDone depName cond (some inner) →
          (depName, ⟨cond⟩) ∈ svc.DependsOn
            ∧ ((∃ ctxErr, inner = timeoutError depName cond ctxErr)
              ∨ (cond = "service_completed_successfully"
                ∧ ∃ code : Int, code ≠ 0
                  ∧ inner = .base (depName ++ " exited with code " ++ toString code))) := by
  unfold Run at h ⊢
  have hne : (runServices cli fuel 0 project.Services s).outcome ≠ .returned none := by
    rw [h]; simp
  have hlt := (runServices_index cli fuel 0 project.Services s).2.1 hne
  rw [Nat.zero_add] at hlt
  obtain ⟨svc, hsvc⟩ : ∃ svc,
      project.Services[(runServices cli fuel 0 project.Services s).index]? = some svc :=
    ⟨_, List.getElem?_eq_getElem hlt⟩
  have hloc := runServices_local cli fuel 0 project.Services s _ svc hsvc
  simp only [Nat.zero_add] at hloc
  rcases hloc with ⟨hbad, _, _⟩ | ⟨s', htr, _, ⟨hbad, _⟩ | ⟨_, _, ho⟩⟩
  · omega
  · omega
  · rw [ho] at h
    obtain ⟨ev, hl, hs, hp, hwait⟩ := runService_error cli fuel svc s' e h
    exact ⟨svc, ev, hsvc, by rw [htr]; exact hl, hs, hp, hwait⟩

end ErrorLemmas

/-! ## What the errors of `Run` say -/

/-- Counterexample to C9: the service "web" has the image reference "nginx"
and its pull fails; the message of the error `Run` returns names the image and
does not contain the name of the service. -/
theorem pull_error_omits_service_name :
    (Run scripted 0 ⟨[⟨"web", "nginx", none, []⟩]⟩
        { quiet with pullErr := some (.base "manifest unknown") }).outcome
      = .returned (some (.wrap "pull image nginx: manifest unknown"
          (.base "manifest unknown")))
    ∧ ¬ Mentions "pull image nginx: manifest unknown" "web" :=
  ⟨rfl, by decide⟩

/-- C9, amended. Every error returned by `Run` comes from the service at the
index where the loop stopped and wraps the error of the last step taken for it
(the return of a dependency wait, or the build, pull, translate, create or
start call), whose message its own message contains.  When that step is not an
image pull, the message contains the name of the service; when it is an image
pull, the service has no build specification and the message is
"pull image <image reference>: <underlying message>", which contains the
image reference of the service. -/
theorem run_error_names_service_or_image {σ κ : Type} (cli : Client σ κ) (fuel : Nat)
    (project : Project) (s : σ) (e : GoError)
    (h : (Run cli fuel project s).outcome = .returned (some e)) :
    ∃ svc ev inner,
      project.Services[(Run cli fuel project s).index]? = some svc
      ∧ (eventsOf (Run cli fuel project s).index (Run cli fuel project s).trace).getLast?
          = some ev
      ∧ ev.err = some inner
      ∧ e.Unwrap = some inner
      ∧ Mentions e.Error inner.Error
      ∧ ((ev.isPull = false ∧ Mentions e.Error svc.Name)
        ∨ (ev.isPull = true ∧ svc.Build = none
          ∧ e.Error = "pull image " ++ svc.Image ++ ": " ++ inner.Error
          ∧ Mentions e.Error svc.Image)) := by
  obtain ⟨svc, ev, hsvc, hl, hs, hp, _⟩ := run_error cli fuel project s e h
  cases hs with
  | wait d c inner =>
    refine ⟨svc, _, inner, hsvc, hl, rfl, rfl,
      mentions_append_right _ _ _ (mentions_self _), Or.inl ⟨rfl, ?_⟩⟩
    exact mentions_append_left _ _ _ (mentions_append_left _ _ _
      (mentions_append_right _ _ _ (mentions_self _)))
  | build inner =>
    refine ⟨svc, _, inner, hsvc, hl, rfl, rfl,
      mentions_append_right _ _ _ (mentions_self _), Or.inl ⟨rfl, ?_⟩⟩
    exact mentions_append_left _ _ _ (mentions_append_left _ _ _
      (mentions_append_right _ _ _ (mentions_self _)))
  | pull inner =>
    refine ⟨svc, _, inner, hsvc, hl, rfl, rfl,
      mentions_append_right _ _ _ (mentions_self _), Or.inr ⟨rfl, hp rfl, rfl, ?_⟩⟩
    exact mentions_append_left _ _ _ (mentions_append_left _ _ _
      (mentions_append_right _ _ _ (mentions_self _)))
  | translate t inner =>
    refine ⟨svc, _, inner, hsvc, hl, rfl, rfl,
      mentions_append_right _ _ _ (mentions_self _), Or.inl ⟨rfl, ?_⟩⟩
    exact mentions_append_left _ _ _ (mentions_append_left _ _ _
      (mentions_append_right _ _ _ (mentions_self _)))
  | create inner =>
    refine ⟨svc, _, inner, hsvc, hl, rfl, rfl,
      mentions_append_right _ _ _ (mentions_self _), Or.inl ⟨rfl, ?_⟩⟩
    exact mentions_append_left _ _ _ (mentions_append_left _ _ _
      (mentions_append_right _ _ _ (mentions_self _)))
  | start id inner =>
    refine ⟨svc, _, inner, hsvc, hl, rfl, rfl,
      mentions_append_right _ _ _ (mentions_self _), Or.inl ⟨rfl, ?_⟩⟩
    exact mentions_append_left _ _ _ (mentions_append_left _ _ _
      (mentions_append_left _ _ _ (mentions_append_left _ _ _
        (mentions_append_right _ _ _ (mentions_self _)))))

/-- Witness of the amended C9: the start of "web" fails; the error wraps the
error of the start call and its message contains "web". -/
theorem run_error_names_service_or_image_witness :
    (Run scripted 0 ⟨[⟨"web", "nginx", none, []⟩]⟩
        { quiet with startErr := some (.base "port is already allocated") }).outcome
      = .returned (some (.wrap
          "start container web (ID: 4f53cda18c2b): port is already allocated"
          (.base "port is already allocated")))
    ∧ ∃ (svc : ServiceConfig) (ev : Event) (inner : GoError),
        (Project.mk [⟨"web", "nginx", none, []⟩]).Services[(Run scripted 0
            ⟨[⟨"web", "nginx", none, []⟩]⟩
            { quiet with startErr := some (.base "port is already allocated") }).index]?
          = some svc
        ∧ ev.err = some inner
        ∧ (GoError.wrap "start container web (ID: 4f53cda18c2b): port is already allocated"
            (.base "port is already allocated")).Unwrap = some inner
        ∧ Mentions "start container web (ID: 4f53cda18c2b): port is already allocated"
            inner.Error := by
  refine ⟨rfl, ?_⟩
  obtain ⟨svc, ev, inner, h1, _, h3, h4, h5, _⟩ :=
    run_error_names_service_or_image scripted 0 ⟨[⟨"web", "nginx", none, []⟩]⟩
      { quiet with startErr := some (.base "port is already allocated") } _ rfl
  exact ⟨svc, ev, inner, h1, h3, h4, h5⟩

set_option maxRecDepth 8000 in
/-- Counterexample to C10: "app" depends on "migrate" with the condition
"service_completed_successfully" and "migrate" is seen stopped with exit code
1; the message of the error `Run` returns contains the two names and does not
contain the condition. -/
theorem exit_error_omits_condition :
    (Run scripted 1
        ⟨[⟨"migrate", "alpine", none, []⟩,
          ⟨"app", "nginx", none, [("migrate", ⟨"service_completed_successfully"⟩)]⟩]⟩
        { quiet with inspects := [exited 1] }).outcome
      = .returned (some (.wrap
          "waiting on dependency migrate for service app: migrate exited with code 1"
          (.base "migrate exited with code 1")))
    ∧ ¬ Mentions
          "waiting on dependency migrate for service app: migrate exited with code 1"
          "service_completed_successfully" :=
  ⟨rfl, by decide⟩

/-- C10, amended. When `Run` returns an error and the last step it took is the
return of a dependency wait with an error, that wait is for an entry
(dependency name, condition) of the dependency map of the service being
processed, the error `Run` returns is
"waiting on dependency <dependency> for service <service>: <wait error>"
wrapping the wait's error, and its message contains the dependency's name and
the service's name.  In the timeout case the wait's error is the timeout error
and the message also contains the condition; in the other case the condition is
"service_completed_successfully", the wait's error is
"<dependency> exited with code <code>" with a non-zero code, and the message
is "waiting on dependency <dependency> for service <service>: <dependency>
exited with code <code>", in which the condition is not written. -/
theorem wait_failure_message {σ κ : Type} (cli : Client σ κ) (fuel : Nat)
    (project : Project) (s : σ) (e : GoError) (depName cond : String) (inner : GoError)
    (h : (Run cli fuel project s).outcome = .returned (some e))
    (hlast : (eventsOf (Run cli fuel project s).index
        (Run cli fuel project s).trace).getLast?
      = some (Event.WaitDone depName cond (some inner))) :
    ∃ svc, project.Services[(Run cli fuel project s).index]? = some svc
      ∧ (depName, ⟨cond⟩) ∈ svc.DependsOn
      ∧ e = .wrap ("waiting on dependency " ++ depName ++ " for service " ++ svc.Name
            ++ ": " ++ inner.Error) inner
      ∧ Mentions e.Error depName
      ∧ Mentions e.Error svc.Name
      ∧ ((∃ ctxErr, inner = timeoutError depName cond ctxErr ∧ Mentions e.Error cond)
        ∨ (cond = "service_completed_successfully"
          ∧ ∃ code : Int, code ≠ 0
            ∧ inner = .base (depName ++ " exited with code " ++ toString code)
            ∧ e.Error = "waiting on dependency " ++ depName ++ " for service " ++ svc.Name
                ++ ": " ++ depName ++ " exited with code " ++ toString code)) := by
  obtain ⟨svc, ev, hsvc, hl, hs, _, hwait⟩ := run_error cli fuel project s e h
  rw [hlast] at hl
  simp only [Option.some.injEq] at hl
  subst hl
  obtain ⟨hmem, hshape⟩ := hwait depName cond inner rfl
  cases hs with
  | wait d c inner' =>
    refine ⟨svc, hsvc, hmem, rfl, ?_, ?_, ?_⟩
    · exact mentions_append_left _ _ _ (mentions_append_left _ _ _
        (mentions_append_left _ _ _ (mentions_append_left _ _ _
          (mentions_append_right _ _ _ (mentions_self _)))))
    · exact mentions_append_left _ _ _ (mentions_append_left _ _ _
        (mentions_append_right _ _ _ (mentions_self _)))
    · rcases hshape with ⟨ctxErr, hc⟩ | ⟨hc, code, hcode, hi⟩
      · refine Or.inl ⟨ctxErr, hc, ?_⟩
        subst hc
        apply mentions_append_right
        exact mentions_append_left _ _ _ (mentions_append_left _ _ _
          (mentions_append_right _ _ _ (mentions_self _)))
      · refine Or.inr ⟨hc, code, hcode, hi, ?_⟩
        subst hi
        simp [GoError.Error, String.append_assoc]

/-- Witness of the amended C10: in the project `[a, b, c]` the wait of "b" on
"a" times out; the message of the error contains "a", "b" and the condition. -/
theorem wait_failure_message_witness :
    (Run scripted 1 abcProject deadlineScript).outcome
        = .returned (some (.wrap ("waiting on dependency a for service b: "
            ++ "timeout waiting for a (service_healthy): context deadline exceeded")
          (timeoutError "a" "service_healthy" (.base "context deadline exceeded"))))
      ∧ (eventsOf (Run scripted 1 abcProject deadlineScript).index
          (Run scripted 1 abcProject deadlineScript).trace).getLast?
        = some (Event.WaitDone "a" "service_healthy"
            (some (timeoutError "a" "service_healthy" (.base "context deadline exceeded"))))
      ∧ ∃ svc, abcProject.Services[(Run scripted 1 abcProject deadlineScript).index]?
          = some svc
        ∧ ("a", ⟨"service_healthy"⟩) ∈ svc.DependsOn
        ∧ Mentions ("waiting on dependency a for service b: "
            ++ "timeout waiting for a (service_healthy): context deadline exceeded") "a"
        ∧ Mentions ("waiting on dependency a for service b: "
            ++ "timeout waiting for a (service_healthy): context deadline exceeded")
            svc.Name := by
  refine ⟨rfl, rfl, ?_⟩
  obtain ⟨svc, h1, h2, _, h4, h5, _⟩ :=
    wait_failure_message scripted 1 abcProject deadlineScript _ "a" "service_healthy" _
      rfl rfl
  exact ⟨svc, h1, h2, h4, h5⟩

/-! ## The deadline -/

theorem check_stillWaiting (name cond th : String) (res : Except GoError InspectResponse)
    (hcond : cond = "service_healthy" ∨ cond = "service_completed_successfully")
    (h : StillWaiting cond th res) :
    check name cond (if th = "" then "healthy" else th) res = (false, none) := by
  rcases hcond with rfl | rfl
  · exact check_healthy_waiting name _ res (by simpa [StillWaiting] using h)
  · exact check_completed_waiting name _ res (by simpa [StillWaiting] using h)

theorem waitForCondition_polled_eq {σ κ : Type} (cli : Client σ κ) (fuel : Nat) (s : σ)
    (name cond th : String)
    (hcond : cond = "service_healthy" ∨ cond = "service_completed_successfully") :
    waitForCondition cli fuel s name cond th
      = waitLoop cli name cond (if th = "" then "healthy" else th) fuel s := by
  rcases hcond with rfl | rfl
  · exact waitForCondition_healthy_eq_gen cli fuel s name th
  · exact waitForCondition_completed_eq cli fuel s name th

/-- C11. For a wait on "service_healthy" or "service_completed_successfully":
when every poll up to poll `k` leaves the wait waiting, the selects before poll
`k` tick, and the select after poll `k` takes the branch of the context, whose
error is `ctxErr`, then with any allowance of more than `k` polls the wait
returns, after `k + 1` inspections, the error
"timeout waiting for <name> (<condition>): <message of ctxErr>"; that is not
nil, it wraps `ctxErr`, and its message contains the service name and the
condition. -/
theorem deadline_wait_contract {σ κ : Type} (cli : Client σ κ) (name cond th : String)
    (s : σ) (k : Nat) (ctxErr : GoError)
    (hcond : cond = "service_healthy" ∨ cond = "service_completed_successfully")
    (hwait : ∀ j, j ≤ k → StillWaiting cond th (inspectAt cli name s j))
    (htick : ∀ j, j < k → selectAt cli name s j = none)
    (hdone : selectAt cli name s k = some ctxErr) :
    ∀ fuel, k < fuel →
      (waitForCondition cli fuel s name cond th).outcome
          = .returned (some (timeoutError name cond ctxErr))
        ∧ (waitForCondition cli fuel s name cond th).outcome ≠ .returned none
        ∧ inspections (waitForCondition cli fuel s name cond th).trace = k + 1
        ∧ (timeoutError name cond ctxErr).Unwrap = some ctxErr
        ∧ (timeoutError name cond ctxErr).Error
            = "timeout waiting for " ++ name ++ " (" ++ cond ++ "): " ++ ctxErr.Error
        ∧ Mentions (timeoutError name cond ctxErr).Error name
        ∧ Mentions (timeoutError name cond ctxErr).Error cond := by
  intro fuel hf
  have h : ∀ j, j < k →
      check name cond (if th = "" then "healthy" else th) (inspectAt cli name s j)
          = (false, none)
        ∧ selectAt cli name s j = none :=
    fun j hj => ⟨check_stillWaiting name cond th _ hcond (hwait j (Nat.le_of_lt hj)),
      htick j hj⟩
  have hk := check_stillWaiting name cond th _ hcond (hwait k (Nat.le_refl k))
  obtain ⟨ho, hn⟩ := waitLoop_at_timeout cli name cond _ k s ctxErr h hk hdone fuel hf
  rw [waitForCondition_polled_eq cli fuel s name cond th hcond]
  refine ⟨ho, by rw [ho]; simp, hn, rfl, rfl, ?_, ?_⟩
  · exact mentions_append_left _ _ _ (mentions_append_left _ _ _
      (mentions_append_left _ _ _ (mentions_append_left _ _ _
        (mentions_append_right _ _ _ (mentions_self _)))))
  · exact mentions_append_left _ _ _ (mentions_append_left _ _ _
      (mentions_append_right _ _ _ (mentions_self _)))

/-- Witness of C11: "a" is seen starting and the deadline passes at the first
select; the wait for "service_healthy" returns the timeout error. -/
theorem deadline_wait_contract_witness :
    (∀ j, j ≤ 0 → StillWaiting "service_healthy" "healthy"
        (inspectAt scripted "a" deadlineScript j))
      ∧ selectAt scripted "a" deadlineScript 0 = some (.base "context deadline exceeded")
      ∧ (waitForCondition scripted 1 deadlineScript "a" "service_healthy" "healthy").outcome
        = .returned (some (.wrap
            "timeout waiting for a (service_healthy): context deadline exceeded"
            (.base "context deadline exceeded"))) := by
  have hw : ∀ j, j ≤ 0 → StillWaiting "service_healthy" "healthy"
      (inspectAt scripted "a" deadlineScript j) := by
    intro j hj
    obtain rfl : j = 0 := by omega
    unfold StillWaiting
    rw [if_pos rfl]
    rintro ⟨st, ho, hh⟩
    have : st = ⟨true, 0, some ⟨"starting"⟩⟩ := (Option.some.inj ho).symm
    subst this
    revert hh
    decide
  exact ⟨hw, rfl, (deadline_wait_contract scripted "a" "service_healthy" "healthy"
    deadlineScript 0 (.base "context deadline exceeded") (Or.inl rfl) hw
    (fun j hj => absurd hj (Nat.not_lt_zero j)) rfl 1 (by decide)).1⟩

/-! ## The slice `resp.ID[:12]` -/

/-- After a successful create call, `createAndStart` reaches the start call, with
the full id, exactly when the id has at least 12 characters; with a shorter id
the slice `resp.ID[:12]` of the progress line is out of range and the function
panics, the start call not made. -/
theorem createAndStart_id_length {σ κ : Type} (cli : Client σ κ)
    (stored service : ServiceConfig) (s : σ) (config : κ) (id : String)
    (ht : (cli.TranslateServiceConfigToContainerConfig s service).1 = .ok config)
    (hc : (cli.ContainerCreate (cli.TranslateServiceConfigToContainerConfig s service).2
        config service.Name).1 = .ok id) :
    (id.length < 12 →
        (createAndStart cli stored service s).outcome = .panicked
          ∧ (createAndStart cli stored service s).trace.countP Event.isStart = 0)
      ∧ (12 ≤ id.length →
        (createAndStart cli stored service s).outcome ≠ .panicked
          ∧ ∃ err, Event.ContainerStart id err ∈ (createAndStart cli stored service s).trace) := by
  dsimp only [createAndStart]
  simp only [ht, hc]
  constructor
  · intro hlen
    rw [if_pos hlen]
    simp [List.countP_cons, Event.isStart]
  · intro hlen
    rw [if_neg (by omega)]
    cases hs : (cli.ContainerStart (cli.ContainerCreate
        (cli.TranslateServiceConfigToContainerConfig s service).2 config
          service.Name).2 id).1 with
    | none => exact ⟨by simp, none, by simp⟩
    | some err => exact ⟨by simp, some err, by simp⟩

/-- C12 fails on the code. The service "web" is pulled and translated, and its
create call succeeds with the 6-character id "abc123"; `Run` then panics on
the slice `resp.ID[:12]` of the progress line: it does not return, and the
start call is not made. -/
theorem short_id_panics_before_start :
    (Run scripted 0 ⟨[⟨"web", "nginx", none, []⟩]⟩ { quiet with id := "abc123" }).outcome
        = .panicked
      ∧ (Run scripted 0 ⟨[⟨"web", "nginx", none, []⟩]⟩ { quiet with id := "abc123" }).trace
        = [(0, Event.ImagePull "nginx" none),
           (0, Event.Translate ⟨"web", "nginx", none, []⟩ none),
           (0, Event.ContainerCreate "web" (.ok "abc123"))]
      ∧ callsOf 0 Event.isStart
          (Run scripted 0 ⟨[⟨"web", "nginx", none, []⟩]⟩ { quiet with id := "abc123" }).trace
        = 0 :=
  ⟨rfl, rfl, rfl⟩

end Runner
